import Mathlib

/-!
# Verification of the Akile Monitor worker core (`monitor-do.ts`, `utils.ts`, `telegram.ts`)

This file shallowly embeds the stateful core of the Akile Monitor Cloudflare
worker and proves the frozen specification claims about it.

Modelling conventions:

* A JavaScript string is a sequence of UTF-16 code units, embedded as
  `JSString := List Nat` (each element the code-unit value, `< 0x10000` for
  real strings; the definitions are total over all of `List Nat`).
* JavaScript numbers that the code only ever treats integrally (timestamps,
  byte counts, sizes) are embedded as `Int` / `Nat`.
* Runtime primitives that are not part of this repository's source
  (`DecompressionStream` gunzip, `JSON.parse`, `TextDecoder`) are passed as
  explicit function parameters, bundled in `JsRuntime`; theorems quantify over
  them and state their contracts as hypotheses.  `JSON.parse` is modelled as
  `parseMon : JSString → Option MonitorData`: `none` models a parse exception,
  and a parsed value that lacks the `MonitorData` shape is modelled by the
  erased record with default (falsy) fields, which the code's `data.Host?.Name`
  truthiness check rejects exactly like the real undefined access.
* A `Map` is embedded as an association list without duplicate keys;
  `Map.set` replaces in place or appends, `Map.delete` removes the entry,
  `Map.size` is the list length — matching JS insertion-order semantics.
-/

/-- A JavaScript string: its sequence of UTF-16 code-unit values. -/
abbrev JSString : Type := List Nat

/-- Code units of a Lean string literal (all our literals are ASCII/BMP). -/
def strCodes (s : String) : JSString := s.data.map Char.toNat

/-- JS `\d`: the decimal digit code units `0`–`9`. -/
def isDigitCode (c : Nat) : Bool := 48 ≤ c && c ≤ 57

/-- JS `[a-zA-Z]`. -/
def isLetterCode (c : Nat) : Bool := (65 ≤ c && c ≤ 90) || (97 ≤ c && c ≤ 122)

/-- JS `\s` (ECMAScript WhiteSpace ∪ LineTerminator code points). -/
def isWsCode (c : Nat) : Bool :=
  c = 9 || c = 10 || c = 11 || c = 12 || c = 13 || c = 32 || c = 160 ||
  c = 5760 || (8192 ≤ c && c ≤ 8202) || c = 8232 || c = 8233 || c = 8239 ||
  c = 8287 || c = 12288 || c = 65279

/-- `str.replace(/\s+/g, "")`: deleting every whitespace code unit. -/
def stripWs (s : JSString) : JSString := s.filter (fun c => !isWsCode c)

/-- `parseInt` on a digit run (decimal value of the digit string; `[] ↦ 0`,
matching the code's `matches[2] ? parseInt(matches[2], 10) : 0`). -/
def digitsVal (ds : List Nat) : Nat := ds.foldl (fun acc c => acc * 10 + (c - 48)) 0

/-- Code-unit-wise three-way comparison of two code-unit lists: the loop in
`compareStrings` that compares `charCodeAt` positions up to the shorter
length and then places the shorter string first, which is also exactly the
JS `<`/`>` relational comparison used on string tokens in `naturalCompare`. -/
def cmpCodes : List Nat → List Nat → Int
  | [], [] => 0
  | [], _ :: _ => -1
  | _ :: _, [] => 1
  | a :: as, b :: bs => if a < b then -1 else if b < a then 1 else cmpCodes as bs

/-- The match of `/^([a-zA-Z]+)(\d*)$/` against `s`: `some (letters, digits)`
when `s` is one-or-more letters followed by zero-or-more digits, else `none`.
(The two character classes are disjoint, so greedy matching is the unique
decomposition.) -/
def lettersDigitsSplit (s : JSString) : Option (List Nat × List Nat) :=
  let L := s.takeWhile isLetterCode
  let D := s.dropWhile isLetterCode
  if L ≠ [] ∧ D.all isDigitCode then some (L, D) else none

/-- One token of `naturalCompare`'s tokenizer `/(\d+)|(\D+)/g`: a maximal
digit run (kept as its numeric value, as the code does `parseInt`) or a
maximal non-digit run (kept as the code-unit string). -/
inductive Tok where
  | num : Nat → Tok
  | str : List Nat → Tok
deriving DecidableEq

/-- The maximal digit / non-digit runs of a code-unit list, each tagged with
whether it is a digit run: the successive matches of `/(\d+)|(\D+)/g`. -/
def tokenizeRuns : List Nat → List (Bool × List Nat)
  | [] => []
  | c :: cs =>
    match tokenizeRuns cs with
    | [] => [(isDigitCode c, [c])]
    | (d, run) :: ts =>
      if isDigitCode c == d then (d, c :: run) :: ts
      else (isDigitCode c, [c]) :: (d, run) :: ts

/-- The tokenizer of `naturalCompare`: split into maximal runs of digits
(numeric tokens, via `parseInt`) and non-digits (string tokens). -/
def tokenize (s : List Nat) : List Tok :=
  (tokenizeRuns s).map (fun r => if r.1 then Tok.num (digitsVal r.2) else Tok.str r.2)

/-- Comparison of one token pair in `naturalCompare`'s loop: numbers
numerically, a number sorts before a string on a type mismatch, strings by
the JS `<`/`>` code-unit order. -/
def cmpTok : Tok → Tok → Int
  | Tok.num a, Tok.num b => if a < b then -1 else if b < a then 1 else 0
  | Tok.num _, Tok.str _ => -1
  | Tok.str _, Tok.num _ => 1
  | Tok.str a, Tok.str b => cmpCodes a b

/-- The main loop of `naturalCompare`: compare token pairs up to the shorter
token list, returning the first nonzero comparison, else the length
difference `tokensA.length - tokensB.length`. -/
def natCmpToks : List Tok → List Tok → Int
  | [], bs => -(bs.length : Int)
  | _ :: as, [] => (as.length : Int) + 1
  | a :: as, b :: bs =>
    let c := cmpTok a b
    if c = 0 then natCmpToks as bs else c

/-- `naturalCompare` (utils.ts): generic natural comparison via the
digit/non-digit tokenization. -/
def naturalCompare (a b : JSString) : Int := natCmpToks (tokenize a) (tokenize b)

/-- `compareStrings` (utils.ts): strip all whitespace; if both strings match
`letters⁺digits*`, compare the letter parts code-unit-wise (shorter first on
a tie) and then the numeric suffixes as integers (absent = 0); otherwise
fall back to `naturalCompare` on the stripped strings. -/
def compareStrings (str1 str2 : JSString) : Int :=
  let s1 := stripWs str1
  let s2 := stripWs str2
  match lettersDigitsSplit s1, lettersDigitsSplit s2 with
  | some (l1, d1), some (l2, d2) =>
    let c := cmpCodes l1 l2
    if c = 0 then
      let n1 := digitsVal d1
      let n2 := digitsVal d2
      if n1 < n2 then -1 else if n2 < n1 then 1 else 0
    else c
  | some _, none => naturalCompare s1 s2
  | none, some _ => naturalCompare s1 s2
  | none, none => naturalCompare s1 s2

example : compareStrings (strCodes "HK1") (strCodes "HK2") = -1 := by decide
example : compareStrings (strCodes "HK2") (strCodes "HK10") = -1 := by decide
example : compareStrings (strCodes "HK10") (strCodes "US1") = -1 := by decide
example : compareStrings (strCodes "HK 1") (strCodes "HK1") = 0 := by decide
example : compareStrings (strCodes "a-1") (strCodes "a-2") = -1 := by decide
example : compareStrings (strCodes "HK") (strCodes "HK0") = 0 := by decide

/-! ## Data model (`types.ts`) -/

/-- `HostState` (types.ts): real-time metrics reported by an agent. -/
structure HostState where
  CPU : Int
  MemUsed : Int
  SwapUsed : Int
  NetInTransfer : Int
  NetOutTransfer : Int
  NetInSpeed : Int
  NetOutSpeed : Int
  Uptime : Int
  Load1 : Int
  Load5 : Int
  Load15 : Int
deriving DecidableEq

/-- `Host` (types.ts): static host information reported by an agent. -/
structure Host where
  Name : JSString
  Platform : JSString
  PlatformVersion : JSString
  CPU : List JSString
  MemTotal : Int
  SwapTotal : Int
  Arch : JSString
  Virtualization : JSString
  BootTime : Int
deriving DecidableEq

/-- `MonitorData` (types.ts): the full monitoring packet sent by an agent.
A JS value reached through `JSON.parse` that lacks part of this shape is
embedded as the record with falsy defaults in the missing places (in
particular `Host.Name = []` models both a missing and an empty name, which
the code's `!data.Host?.Name` truthiness check treats identically). -/
structure MonitorData where
  Host : Host
  State : HostState
  TimeStamp : Int
deriving DecidableEq

/-- The runtime primitives used by the code that are not part of this
repository (Workers platform APIs).  Theorems quantify over them and state
their contracts as hypotheses:
* `gunzip` — `decompressGzip` via `DecompressionStream("gzip")` plus UTF-8
  decoding of the result (`none` models a thrown decompression error);
* `parseMon` — `JSON.parse` (`none` models a thrown syntax error, `some`
  the parsed value erased to the `MonitorData` shape);
* `utf8dec` — `new TextDecoder().decode` on a byte sequence. -/
structure JsRuntime where
  gunzip : List Nat → Option JSString
  parseMon : JSString → Option MonitorData
  utf8dec : List Nat → JSString

/-! ## JS `Map` as an association list (insertion order, no duplicate keys) -/

/-- `Map.get`. -/
def mapLookup (l : List (JSString × α)) (k : JSString) : Option α :=
  match l with
  | [] => none
  | kv :: t => if kv.1 = k then some kv.2 else mapLookup t k

/-- `Map.has`. -/
def mapHas (l : List (JSString × α)) (k : JSString) : Bool :=
  (mapLookup l k).isSome

/-- `Map.set`: replace in place when the key is present, else append. -/
def mapSet (l : List (JSString × α)) (k : JSString) (v : α) : List (JSString × α) :=
  match l with
  | [] => [(k, v)]
  | kv :: t => if kv.1 = k then (k, v) :: t else kv :: mapSet t k v

/-- `Map.delete`: remove the entry with the given key. -/
def mapDelete (l : List (JSString × α)) (k : JSString) : List (JSString × α) :=
  match l with
  | [] => []
  | kv :: t => if kv.1 = k then t else kv :: mapDelete t k

/-! ## `JSON.stringify` on the erased `MonitorData` shape

The viewer payload is `JSON.stringify(monitors)`.  We embed it as a concrete
serializer over the erased records (fields in `types.ts` declaration order;
the claims only ever compare payloads for value equality, so only
determinism of this function matters to them). -/

/-- Decimal digits of a natural number, as code units. -/
def natDecimal (n : Nat) : List Nat := (Nat.toDigits 10 n).map Char.toNat

/-- Decimal rendering of an integer, as code units. -/
def intDecimal (i : Int) : List Nat :=
  if i < 0 then 45 :: natDecimal i.natAbs else natDecimal i.natAbs

/-- One hex digit (lowercase), as a code unit. -/
def hexDigit (n : Nat) : Nat := if n < 10 then 48 + n else 87 + n

/-- JSON string escaping of one code unit. -/
def jsonEscapeCode (c : Nat) : List Nat :=
  if c = 34 then [92, 34]
  else if c = 92 then [92, 92]
  else if c = 8 then [92, 98]
  else if c = 12 then [92, 102]
  else if c = 10 then [92, 110]
  else if c = 13 then [92, 114]
  else if c = 9 then [92, 116]
  else if c < 32 then
    [92, 117, hexDigit (c / 4096 % 16), hexDigit (c / 256 % 16),
     hexDigit (c / 16 % 16), hexDigit (c % 16)]
  else [c]

/-- A JSON string literal. -/
def jsonStr (s : JSString) : JSString :=
  34 :: (s.map jsonEscapeCode).flatten ++ [34]

/-- Comma-separated concatenation. -/
def commaSep : List JSString → JSString
  | [] => []
  | [x] => x
  | x :: y :: xs => x ++ (44 :: commaSep (y :: xs))

/-- A JSON array. -/
def jsonArr (xs : List JSString) : JSString := 91 :: commaSep xs ++ [93]

/-- A JSON object member `"name":value`. -/
def jsonField (name : String) (v : JSString) : JSString :=
  jsonStr (strCodes name) ++ (58 :: v)

/-- A JSON object. -/
def jsonObj (fields : List JSString) : JSString := 123 :: commaSep fields ++ [125]

/-- `JSON.stringify` of a `Host`. -/
def stringifyHost (h : Host) : JSString :=
  jsonObj [jsonField "Name" (jsonStr h.Name),
    jsonField "Platform" (jsonStr h.Platform),
    jsonField "PlatformVersion" (jsonStr h.PlatformVersion),
    jsonField "CPU" (jsonArr (h.CPU.map jsonStr)),
    jsonField "MemTotal" (intDecimal h.MemTotal),
    jsonField "SwapTotal" (intDecimal h.SwapTotal),
    jsonField "Arch" (jsonStr h.Arch),
    jsonField "Virtualization" (jsonStr h.Virtualization),
    jsonField "BootTime" (intDecimal h.BootTime)]

/-- `JSON.stringify` of a `HostState`. -/
def stringifyState (s : HostState) : JSString :=
  jsonObj [jsonField "CPU" (intDecimal s.CPU),
    jsonField "MemUsed" (intDecimal s.MemUsed),
    jsonField "SwapUsed" (intDecimal s.SwapUsed),
    jsonField "NetInTransfer" (intDecimal s.NetInTransfer),
    jsonField "NetOutTransfer" (intDecimal s.NetOutTransfer),
    jsonField "NetInSpeed" (intDecimal s.NetInSpeed),
    jsonField "NetOutSpeed" (intDecimal s.NetOutSpeed),
    jsonField "Uptime" (intDecimal s.Uptime),
    jsonField "Load1" (intDecimal s.Load1),
    jsonField "Load5" (intDecimal s.Load5),
    jsonField "Load15" (intDecimal s.Load15)]

/-- `JSON.stringify` of a `MonitorData`. -/
def stringifyMonitor (m : MonitorData) : JSString :=
  jsonObj [jsonField "Host" (stringifyHost m.Host),
    jsonField "State" (stringifyState m.State),
    jsonField "TimeStamp" (intDecimal m.TimeStamp)]

/-- `JSON.stringify(monitors)` for the viewer payload. -/
def serializeMonitors (l : List MonitorData) : JSString :=
  jsonArr (l.map stringifyMonitor)

/-! ## UTF-8 encoding (`TextEncoder.encode`, used by decode strategy 3) -/

/-- UTF-8 bytes of one code point (input already surrogate-combined). -/
def utf8EncodeChar (c : Nat) : List Nat :=
  if c < 128 then [c]
  else if c < 2048 then [192 + c / 64, 128 + c % 64]
  else if c < 65536 then [224 + c / 4096, 128 + c / 64 % 64, 128 + c % 64]
  else [240 + c / 262144, 128 + c / 4096 % 64, 128 + c / 64 % 64, 128 + c % 64]

/-- `new TextEncoder().encode(s)`: UTF-8 bytes of a code-unit sequence,
combining surrogate pairs and replacing lone surrogates with U+FFFD. -/
def utf8Encode : List Nat → List Nat
  | [] => []
  | c :: cs =>
    if 55296 ≤ c ∧ c ≤ 56319 then
      match cs with
      | c2 :: rest =>
        if 56320 ≤ c2 ∧ c2 ≤ 57343 then
          utf8EncodeChar (65536 + (c - 55296) * 1024 + (c2 - 56320)) ++ utf8Encode rest
        else utf8EncodeChar 65533 ++ utf8Encode (c2 :: rest)
      | [] => utf8EncodeChar 65533
    else if 56320 ≤ c ∧ c ≤ 57343 then utf8EncodeChar 65533 ++ utf8Encode cs
    else utf8EncodeChar c ++ utf8Encode cs
termination_by l => l.length
decreasing_by all_goals simp +arith

/-! ## Constants (`monitor-do.ts`) -/

/-- Maximum number of `monitorData` entries. -/
def MONITOR_DATA_MAX_ENTRIES : Nat := 500

/-- Maximum age (seconds) of a snapshot restored from storage. -/
def SNAPSHOT_MAX_AGE_SEC : Int := 300

/-- Offline-detection threshold (seconds). -/
def OFFLINE_THRESHOLD_SEC : Int := 60

/-- The durable-storage key of one monitor snapshot: `"monitor:" + name`. -/
def monitorKey (name : JSString) : JSString := strCodes "monitor:" ++ name

/-! ## The Durable Object state and operations (`monitor-do.ts`) -/

/-- The mutable in-memory state of `MonitorDO` that the claims concern:
`monitorData` (name → latest raw `MonitorData` JSON string), `offlineMap`
(name → known-offline flag) and the cached viewer payload. -/
structure DOState where
  monitorData : List (JSString × JSString)
  offlineMap : List (JSString × Bool)
  cachedViewerPayload : Option JSString
deriving DecidableEq

/-- An inbound WebSocket message: a text frame or a binary frame. -/
inductive WireMsg where
  | text : JSString → WireMsg
  | binary : List Nat → WireMsg

/-- `tryDecompressStringMessage` (monitor-do.ts): decoding of a text frame.
Strategy 1: parse the text directly as JSON and return it unchanged on
success.  Strategy 2: map each code unit to the byte `c & 0xff`, gunzip, and
JSON-validate the result.  Strategy 3: UTF-8-encode the text, gunzip, and
JSON-validate.  First success wins; `none` when all three fail. -/
def tryDecompressStringMessage (rt : JsRuntime) (message : JSString) : Option JSString :=
  if (rt.parseMon message).isSome then some message
  else
    let strat2 : Option JSString :=
      match rt.gunzip (message.map (fun c => c % 256)) with
      | some jsonStr => if (rt.parseMon jsonStr).isSome then some jsonStr else none
      | none => none
    match strat2 with
    | some j => some j
    | none =>
      match rt.gunzip (utf8Encode message) with
      | some jsonStr => if (rt.parseMon jsonStr).isSome then some jsonStr else none
      | none => none

/-- The decode stage of `handleAgentData`: a text frame goes through
`tryDecompressStringMessage`, a binary frame through `decompressGzip`
(whose thrown error is caught by the surrounding `try`, hence `Option`). -/
def decodeAgentMessage (rt : JsRuntime) : WireMsg → Option JSString
  | WireMsg.text s => tryDecompressStringMessage rt s
  | WireMsg.binary b => rt.gunzip b

/-- `getAllMonitorData`, entry collection: parse every stored value,
skipping entries whose parse fails, keeping the map key alongside. -/
def getAllEntries (rt : JsRuntime) (md : List (JSString × JSString)) :
    List (JSString × MonitorData) :=
  md.filterMap (fun kv => (rt.parseMon kv.2).map (fun m => (kv.1, m)))

/-- The comparator `(a, b) => compareStrings(a.Name, b.Name)` as the binary
relation a stable JS `Array.sort` sorts by. -/
def entryLe (a b : JSString × MonitorData) : Prop := compareStrings a.1 b.1 ≤ 0

instance : DecidableRel entryLe :=
  fun a b => inferInstanceAs (Decidable (compareStrings a.1 b.1 ≤ 0))

/-- The same relation on bare names, for stating results about key order. -/
def nameLe (a b : JSString) : Prop := compareStrings a b ≤ 0

instance : DecidableRel nameLe :=
  fun a b => inferInstanceAs (Decidable (compareStrings a b ≤ 0))

/-- `getAllMonitorData` (monitor-do.ts): parse all stored entries, sort them
with `compareStrings` on the map key (JS `Array.sort` is stable; embedded as
insertion sort by `compareStrings ≤ 0`), and return the data objects. -/
def getAllMonitorData (rt : JsRuntime) (md : List (JSString × JSString)) :
    List MonitorData :=
  ((getAllEntries rt md).insertionSort entryLe).map (fun e => e.2)

/-- `getViewerPayload` (monitor-do.ts): return the cached payload, or on a
cache miss serialize `getAllMonitorData` and memoize it. -/
def getViewerPayload (rt : JsRuntime) (st : DOState) : JSString × DOState :=
  match st.cachedViewerPayload with
  | some p => (p, st)
  | none =>
    let p := serializeMonitors (getAllMonitorData rt st.monitorData)
    (p, { st with cachedViewerPayload := some p })

/-- `broadcastToViewers` (monitor-do.ts): no-op when no viewer is connected;
otherwise build `"data: " + getViewerPayload()` (filling the cache) and send
it to every viewer (send failures are caught per connection). -/
def broadcastToViewers (rt : JsRuntime) (st : DOState) (viewerCount : Nat) :
    DOState × List JSString :=
  if viewerCount = 0 then (st, [])
  else
    let pr := getViewerPayload rt st
    (pr.2, List.replicate viewerCount (strCodes "data: " ++ pr.1))

/-- The outcome of `handleAgentData`: the state afterwards, whether control
reached the store-update-and-broadcast tail of the function, and the frames
sent to viewers.  The function never closes the socket and every failure
path is caught (`catch` logs and returns), which the totality of this
definition reflects. -/
structure AgentDataResult where
  st : DOState
  broadcastCalled : Bool
  sent : List JSString
deriving DecidableEq

/-- The tail of `handleAgentData` after a successful decode and JSON parse
(monitor-do.ts lines 339–362): reject a missing/empty `Host.Name`; reject a
new identity when the store already holds `MONITOR_DATA_MAX_ENTRIES`
entries; otherwise store the raw JSON under the name, set
`cachedViewerPayload` to null, and broadcast to all viewers. -/
def agentPut (rt : JsRuntime) (st : DOState) (data : MonitorData)
    (jsonStr : JSString) (viewerCount : Nat) : AgentDataResult :=
  if data.Host.Name = [] then ⟨st, false, []⟩
  else if ¬ mapHas st.monitorData data.Host.Name = true ∧
      MONITOR_DATA_MAX_ENTRIES ≤ st.monitorData.length then ⟨st, false, []⟩
  else
    let md := mapSet st.monitorData data.Host.Name jsonStr
    let br := broadcastToViewers rt ⟨md, st.offlineMap, none⟩ viewerCount
    ⟨br.1, true, br.2⟩

/-- `handleAgentData` (monitor-do.ts): decode the frame, JSON-parse it, and
run the store-update-and-broadcast tail `agentPut`. -/
def handleAgentData (rt : JsRuntime) (st : DOState) (msg : WireMsg)
    (viewerCount : Nat) : AgentDataResult :=
  match decodeAgentMessage rt msg with
  | none => ⟨st, false, []⟩
  | some jsonStr =>
    match rt.parseMon jsonStr with
    | none => ⟨st, false, []⟩
    | some data => agentPut rt st data jsonStr viewerCount

/-- The observable effects of one `webSocketMessage` call on an agent socket:
resulting DO state, the authenticated flag as (re)serialized in the socket's
attachment, frames sent on this socket, close code if the handler closed the
socket, whether the data path reached its broadcast tail, and whether
`ensureAlarm` was invoked. -/
structure AgentMsgEffects where
  st : DOState
  attachment : Bool
  sent : List JSString
  closeCode : Option Nat
  broadcastCalled : Bool
  alarmEnsured : Bool
deriving DecidableEq

/-- The `text` local of the unauthenticated branch of `webSocketMessage`:
a text frame directly, a binary frame through `new TextDecoder().decode`. -/
def wireText (rt : JsRuntime) : WireMsg → JSString
  | WireMsg.text s => s
  | WireMsg.binary b => rt.utf8dec b

/-- `webSocketMessage` (monitor-do.ts), agent branch.  The authenticated
state is re-read from the socket's deserialized attachment at the top of
every call (`none` models a missing attachment, defaulted to
`{ authed: false }`).  Authenticated → `handleAgentData`.  Unauthenticated →
the message text (binary frames UTF-8-decoded first) is compared with
`AUTH_SECRET`: mismatch closes with 1008 and nothing else happens; match
persists `{ authed: true }` to the attachment, sends the single
`"auth success"` acknowledgement and ensures the sweep alarm. -/
def webSocketMessageAgent (rt : JsRuntime) (secret : JSString) (st : DOState)
    (attachment : Option Bool) (msg : WireMsg) (viewerCount : Nat) :
    AgentMsgEffects :=
  if attachment.getD false then
    let r := handleAgentData rt st msg viewerCount
    ⟨r.st, true, [], none, r.broadcastCalled, false⟩
  else
    if wireText rt msg ≠ secret then ⟨st, false, [], some 1008, false, false⟩
    else ⟨st, true, [strCodes "auth success"], none, false, true⟩

/-- `webSocketMessage` (monitor-do.ts), viewer branch: any inbound viewer
message answers with `"data: " + getViewerPayload()` on that socket. -/
def webSocketMessageViewer (rt : JsRuntime) (st : DOState) : DOState × List JSString :=
  let pr := getViewerPayload rt st
  (pr.2, [strCodes "data: " ++ pr.1])

/-- The outcome of `rpcDeleteHost`: resulting state, HTTP status, success
flag, and the durable-storage keys deleted by the call. -/
structure DeleteResult where
  st : DOState
  status : Nat
  success : Bool
  storageDeletes : List JSString
deriving DecidableEq

/-- `rpcDeleteHost` (monitor-do.ts): 404 when the name is not in
`monitorData`; otherwise remove it from `monitorData` and `offlineMap`,
invalidate the cached viewer payload, and delete `monitor:<name>` from
durable storage. -/
def rpcDeleteHost (st : DOState) (name : JSString) : DeleteResult :=
  if ¬ mapHas st.monitorData name = true then ⟨st, 404, false, []⟩
  else
    ⟨⟨mapDelete st.monitorData name, mapDelete st.offlineMap name, none⟩,
      200, true, [monitorKey name]⟩

/-- `persistMonitorSnapshot` (monitor-do.ts): the record of batched puts
`monitor:<name> ↦ jsonStr`, one per current store entry (issued as a single
`storage.put` when non-empty). -/
def persistMonitorSnapshot (md : List (JSString × JSString)) :
    List (JSString × JSString) :=
  md.map (fun kv => (monitorKey kv.1, kv.2))

/-- `restoreMonitorSnapshot` (monitor-do.ts): fold over the stored
`monitor:`-prefixed entries (beginning from the freshly-constructed empty
map); an entry parsing to a snapshot with a truthy `Host.Name` and
`TimeStamp > now - SNAPSHOT_MAX_AGE_SEC` is loaded under `Host.Name`, every
other entry's key is collected for one batched delete (`restoreStep` is
the loop body, `restoreMonitorSnapshot` the fold from the freshly
constructed empty map). -/
def restoreStep (rt : JsRuntime) (now : Int)
    (acc : List (JSString × JSString) × List JSString)
    (kv : JSString × JSString) :
    List (JSString × JSString) × List JSString :=
  match rt.parseMon kv.2 with
  | some m =>
    if m.Host.Name ≠ [] ∧ now - SNAPSHOT_MAX_AGE_SEC < m.TimeStamp then
      (mapSet acc.1 m.Host.Name kv.2, acc.2)
    else (acc.1, acc.2 ++ [kv.1])
  | none => (acc.1, acc.2 ++ [kv.1])

def restoreMonitorSnapshot (rt : JsRuntime) (now : Int)
    (entries : List (JSString × JSString)) :
    List (JSString × JSString) × List JSString :=
  entries.foldl (restoreStep rt now) ([], [])

/-- The DO state right after the constructor's `blockConcurrencyWhile`
restore (run before any request is served): restored `monitorData`, empty
`offlineMap`, no cached payload. -/
def initialState (rt : JsRuntime) (now : Int)
    (entries : List (JSString × JSString)) : DOState :=
  ⟨(restoreMonitorSnapshot rt now entries).1, [], none⟩

/-! ## The liveness sweep (`telegram.ts` / `alarm`) -/

/-- One Telegram transition notification (`offlineMessage` `"❌ <name> 离线了"`
or `onlineMessage` `"✅ <name> 上线了"`); the claims count notifications per
identity and transition, so the notification is kept as its identity and
direction rather than its formatted text. -/
inductive Notif where
  | offline : JSString → Notif
  | online : JSString → Notif
deriving DecidableEq

/-- One iteration of the `checkOfflineStatus` loop: skip a falsy name;
stale and not flagged → flag and notify offline; fresh and flagged →
unflag and notify online. -/
def checkOfflineStep (now threshold : Int)
    (acc : List (JSString × Bool) × List Notif) (m : MonitorData) :
    List (JSString × Bool) × List Notif :=
  let name := m.Host.Name
  if name = [] then acc
  else if m.TimeStamp < now - threshold then
    if (mapLookup acc.1 name).getD false then acc
    else (mapSet acc.1 name true, acc.2 ++ [Notif.offline name])
  else
    if (mapLookup acc.1 name).getD false then
      (mapDelete acc.1 name, acc.2 ++ [Notif.online name])
    else acc

/-- `checkOfflineStatus` (telegram.ts): early return when the token or chat
id is falsy or `"0"`; otherwise process every monitor entry in order,
mutating the offline map and collecting the notifications that are then
dispatched concurrently (`Promise.allSettled`; `sendTGMessage` catches its
own errors, so notification failures cannot alter the result). -/
def checkOfflineStatus (now threshold : Int) (token chatId : JSString)
    (monitors : List MonitorData) (offlineMap : List (JSString × Bool)) :
    List (JSString × Bool) × List Notif :=
  if token = [] ∨ chatId = [] ∨ chatId = strCodes "0" then (offlineMap, [])
  else monitors.foldl (checkOfflineStep now threshold) (offlineMap, [])

/-- `alarm` (monitor-do.ts): when Telegram is enabled and the chat id is
truthy and not `"0"`, run `checkOfflineStatus` over `getAllMonitorData`;
then persist the snapshot (the persisted puts are returned alongside). -/
def alarmStep (rt : JsRuntime) (enableTG : Bool) (token chatId : JSString)
    (now : Int) (st : DOState) :
    DOState × List Notif × List (JSString × JSString) :=
  let sweep :=
    if enableTG ∧ chatId ≠ [] ∧ chatId ≠ strCodes "0" then
      checkOfflineStatus now OFFLINE_THRESHOLD_SEC token chatId
        (getAllMonitorData rt st.monitorData) st.offlineMap
    else (st.offlineMap, [])
  (⟨st.monitorData, sweep.1, st.cachedViewerPayload⟩, sweep.2,
    persistMonitorSnapshot st.monitorData)

/-! ## One serialized event of the single-owner actor -/

/-- One inbound event processed by the Durable Object (the single-owner
model serializes these). -/
inductive DOOp where
  | agentMsg : Option Bool → WireMsg → Nat → DOOp
  | viewerMsg : DOOp
  | deleteHost : JSString → DOOp
  | alarmTick : Bool → JSString → JSString → Int → DOOp

/-- The state transition of one event. -/
def applyOp (rt : JsRuntime) (secret : JSString) (st : DOState) : DOOp → DOState
  | DOOp.agentMsg att msg vc => (webSocketMessageAgent rt secret st att msg vc).st
  | DOOp.viewerMsg => (webSocketMessageViewer rt st).1
  | DOOp.deleteHost name => (rpcDeleteHost st name).st
  | DOOp.alarmTick e tok cid now => (alarmStep rt e tok cid now st).1

/-! ## Invariants -/

/-- The monitor-store invariant of claim C1: at most
`MONITOR_DATA_MAX_ENTRIES` entries, no duplicate keys, and every stored
value parses to a snapshot whose `Host.Name` equals its map key. -/
def StoreInv (rt : JsRuntime) (md : List (JSString × JSString)) : Prop :=
  md.length ≤ MONITOR_DATA_MAX_ENTRIES ∧
  (md.map Prod.fst).Nodup ∧
  ∀ kv ∈ md, ∃ m, rt.parseMon kv.2 = some m ∧ m.Host.Name = kv.1

/-- The broadcast-cache invariant of claim C8: a non-null cached payload is
the serialization of the current natural-sorted snapshot list. -/
def CacheInv (rt : JsRuntime) (st : DOState) : Prop :=
  ∀ p, st.cachedViewerPayload = some p →
    p = serializeMonitors (getAllMonitorData rt st.monitorData)


/-! ## Association-map lemmas -/

theorem mapLookup_set_self (l : List (JSString × α)) (k : JSString) (v : α) :
    mapLookup (mapSet l k v) k = some v := by
  induction l with
  | nil => simp [mapSet, mapLookup]
  | cons kv t ih =>
    by_cases h : kv.1 = k
    · simp [mapSet, h, mapLookup]
    · simp [mapSet, h, mapLookup, ih]

theorem mapLookup_set_ne (l : List (JSString × α)) (k k' : JSString) (v : α)
    (h : k' ≠ k) : mapLookup (mapSet l k v) k' = mapLookup l k' := by
  have h2 : ¬ (k = k') := fun hh => h hh.symm
  induction l with
  | nil => simp [mapSet, mapLookup, h2]
  | cons kv t ih =>
    by_cases hk : kv.1 = k
    · subst hk
      simp [mapSet, mapLookup, h2, fun hh : kv.1 = k' => h2 hh]
    · simp only [mapSet, hk, if_false]
      by_cases hk' : kv.1 = k'
      · simp [mapLookup, hk']
      · simp [mapLookup, hk', ih]

theorem mapHas_iff_mem_keys (l : List (JSString × α)) (k : JSString) :
    mapHas l k = true ↔ k ∈ l.map Prod.fst := by
  induction l with
  | nil => simp [mapHas, mapLookup]
  | cons kv t ih =>
    by_cases h : kv.1 = k
    · simp [mapHas, mapLookup, h]
    · have h2 : ¬ (k = kv.1) := fun hh => h hh.symm
      rw [List.map_cons, List.mem_cons]
      rw [show mapHas (kv :: t) k = mapHas t k by simp [mapHas, mapLookup, h]]
      simp only [h2, false_or]
      exact ih

theorem keys_mapSet_mem (l : List (JSString × α)) (k : JSString) (v : α)
    (h : mapHas l k = true) : (mapSet l k v).map Prod.fst = l.map Prod.fst := by
  induction l with
  | nil => simp [mapHas, mapLookup] at h
  | cons kv t ih =>
    by_cases hk : kv.1 = k
    · simp [mapSet, hk]
    · simp only [mapHas, mapLookup, hk, if_false] at h
      simp [mapSet, hk, ih h]

theorem keys_mapSet_new (l : List (JSString × α)) (k : JSString) (v : α)
    (h : ¬ mapHas l k = true) :
    (mapSet l k v).map Prod.fst = l.map Prod.fst ++ [k] := by
  induction l with
  | nil => simp [mapSet]
  | cons kv t ih =>
    by_cases hk : kv.1 = k
    · simp [mapHas, mapLookup, hk] at h
    · simp only [mapHas, mapLookup, hk, if_false] at h
      simp [mapSet, hk, ih h]

theorem length_mapSet_mem (l : List (JSString × α)) (k : JSString) (v : α)
    (h : mapHas l k = true) : (mapSet l k v).length = l.length := by
  have := congrArg List.length (keys_mapSet_mem l k v h)
  simpa using this

theorem length_mapSet_new (l : List (JSString × α)) (k : JSString) (v : α)
    (h : ¬ mapHas l k = true) : (mapSet l k v).length = l.length + 1 := by
  have := congrArg List.length (keys_mapSet_new l k v h)
  simpa using this

theorem mem_mapSet (l : List (JSString × α)) (k : JSString) (v : α) (kv : JSString × α)
    (h : kv ∈ mapSet l k v) : kv = (k, v) ∨ kv ∈ l := by
  induction l with
  | nil => simpa [mapSet] using h
  | cons kv0 t ih =>
    by_cases hk : kv0.1 = k
    · simp only [mapSet, hk, if_true, List.mem_cons] at h
      rcases h with h | h
      · exact Or.inl h
      · exact Or.inr (List.mem_cons_of_mem _ h)
    · simp only [mapSet, hk, if_false, List.mem_cons] at h
      rcases h with h | h
      · exact Or.inr (h ▸ List.mem_cons_self _ _)
      · rcases ih h with h | h
        · exact Or.inl h
        · exact Or.inr (List.mem_cons_of_mem _ h)

theorem nodup_keys_mapSet (l : List (JSString × α)) (k : JSString) (v : α)
    (h : (l.map Prod.fst).Nodup) : ((mapSet l k v).map Prod.fst).Nodup := by
  by_cases hk : mapHas l k = true
  · rw [keys_mapSet_mem l k v hk]
    exact h
  · rw [keys_mapSet_new l k v hk]
    have hnm : k ∉ l.map Prod.fst := fun hm => hk ((mapHas_iff_mem_keys l k).mpr hm)
    refine List.Nodup.append h (List.nodup_singleton k) ?_
    intro a ha hb
    rw [List.mem_singleton] at hb
    subst hb
    exact hnm ha

theorem mem_mapDelete (l : List (JSString × α)) (k : JSString) (kv : JSString × α)
    (h : kv ∈ mapDelete l k) : kv ∈ l := by
  induction l with
  | nil => simp [mapDelete] at h
  | cons kv0 t ih =>
    by_cases hk : kv0.1 = k
    · simp only [mapDelete, hk, if_true] at h
      exact List.mem_cons_of_mem _ h
    · simp only [mapDelete, hk, if_false, List.mem_cons] at h
      rcases h with h | h
      · exact h ▸ List.mem_cons_self _ _
      · exact List.mem_cons_of_mem _ (ih h)

theorem keys_mapDelete_sublist (l : List (JSString × α)) (k : JSString) :
    ((mapDelete l k).map Prod.fst).Sublist (l.map Prod.fst) := by
  induction l with
  | nil => simp [mapDelete]
  | cons kv0 t ih =>
    by_cases hk : kv0.1 = k
    · simp only [mapDelete, hk, if_true, List.map_cons]
      exact (List.Sublist.refl _).cons _
    · simp only [mapDelete, hk, if_false, List.map_cons]
      exact ih.cons₂ _

theorem nodup_keys_mapDelete (l : List (JSString × α)) (k : JSString)
    (h : (l.map Prod.fst).Nodup) : ((mapDelete l k).map Prod.fst).Nodup :=
  (keys_mapDelete_sublist l k).nodup h

theorem mapLookup_delete_self (l : List (JSString × α)) (k : JSString)
    (h : (l.map Prod.fst).Nodup) : mapLookup (mapDelete l k) k = none := by
  induction l with
  | nil => simp [mapDelete, mapLookup]
  | cons kv0 t ih =>
    rw [List.map_cons, List.nodup_cons] at h
    by_cases hk : kv0.1 = k
    · subst hk
      rw [show mapDelete (kv0 :: t) kv0.1 = t by simp [mapDelete]]
      cases hl : mapLookup t kv0.1 with
      | none => rfl
      | some v =>
        exfalso
        have hm : mapHas t kv0.1 = true := by simp [mapHas, hl]
        exact h.1 ((mapHas_iff_mem_keys t kv0.1).mp hm)
    · simp [mapDelete, hk, mapLookup, ih h.2]

theorem mapLookup_delete_ne (l : List (JSString × α)) (k k' : JSString)
    (h : k' ≠ k) : mapLookup (mapDelete l k) k' = mapLookup l k' := by
  induction l with
  | nil => simp [mapDelete]
  | cons kv0 t ih =>
    by_cases hk : kv0.1 = k
    · subst hk
      have h2 : ¬ (kv0.1 = k') := fun hh => h (hh.symm)
      simp [mapDelete, mapLookup, h2]
    · simp only [mapDelete, hk, if_false]
      by_cases hk' : kv0.1 = k'
      · simp [mapLookup, hk']
      · simp [mapLookup, hk', ih]

theorem length_mapDelete_mem (l : List (JSString × α)) (k : JSString)
    (hn : (l.map Prod.fst).Nodup) (h : mapHas l k = true) :
    (mapDelete l k).length + 1 = l.length := by
  induction l with
  | nil => simp [mapHas, mapLookup] at h
  | cons kv0 t ih =>
    rw [List.map_cons, List.nodup_cons] at hn
    by_cases hk : kv0.1 = k
    · simp [mapDelete, hk]
    · simp only [mapHas, mapLookup, hk, if_false] at h
      simp [mapDelete, hk, ih hn.2 h]

/-! ## Basic operation lemmas -/

theorem max_entries_val : MONITOR_DATA_MAX_ENTRIES = 500 := rfl

theorem getViewerPayload_monitorData (rt : JsRuntime) (st : DOState) :
    (getViewerPayload rt st).2.monitorData = st.monitorData := by
  unfold getViewerPayload
  cases st.cachedViewerPayload <;> rfl

theorem getViewerPayload_offlineMap (rt : JsRuntime) (st : DOState) :
    (getViewerPayload rt st).2.offlineMap = st.offlineMap := by
  unfold getViewerPayload
  cases st.cachedViewerPayload <;> rfl

theorem broadcastToViewers_monitorData (rt : JsRuntime) (st : DOState) (vc : Nat) :
    (broadcastToViewers rt st vc).1.monitorData = st.monitorData := by
  unfold broadcastToViewers
  by_cases h : vc = 0
  · simp [h]
  · simp [h, getViewerPayload_monitorData]

theorem broadcastToViewers_offlineMap (rt : JsRuntime) (st : DOState) (vc : Nat) :
    (broadcastToViewers rt st vc).1.offlineMap = st.offlineMap := by
  unfold broadcastToViewers
  by_cases h : vc = 0
  · simp [h]
  · simp [h, getViewerPayload_offlineMap]

theorem handleAgentData_decode_fail (rt : JsRuntime) (st : DOState)
    (msg : WireMsg) (vc : Nat) (h : decodeAgentMessage rt msg = none) :
    handleAgentData rt st msg vc = ⟨st, false, []⟩ := by
  unfold handleAgentData
  rw [h]

theorem handleAgentData_parse_fail (rt : JsRuntime) (st : DOState)
    (msg : WireMsg) (vc : Nat) (j : JSString)
    (h : decodeAgentMessage rt msg = some j) (hp : rt.parseMon j = none) :
    handleAgentData rt st msg vc = ⟨st, false, []⟩ := by
  unfold handleAgentData
  simp only [h, hp]

theorem handleAgentData_parsed (rt : JsRuntime) (st : DOState) (msg : WireMsg)
    (vc : Nat) (j : JSString) (d : MonitorData)
    (h : decodeAgentMessage rt msg = some j) (hp : rt.parseMon j = some d) :
    handleAgentData rt st msg vc = agentPut rt st d j vc := by
  unfold handleAgentData
  simp only [h, hp]

theorem agentPut_reject (rt : JsRuntime) (st : DOState) (d : MonitorData)
    (j : JSString) (vc : Nat) (h1 : d.Host.Name ≠ [])
    (h2 : mapHas st.monitorData d.Host.Name = false)
    (h3 : MONITOR_DATA_MAX_ENTRIES ≤ st.monitorData.length) :
    agentPut rt st d j vc = ⟨st, false, []⟩ := by
  unfold agentPut
  simp [h1, h2, h3]

theorem agentPut_name_empty (rt : JsRuntime) (st : DOState) (d : MonitorData)
    (j : JSString) (vc : Nat) (h1 : d.Host.Name = []) :
    agentPut rt st d j vc = ⟨st, false, []⟩ := by
  unfold agentPut
  simp [h1]

theorem agentPut_accept (rt : JsRuntime) (st : DOState) (d : MonitorData)
    (j : JSString) (vc : Nat) (h1 : d.Host.Name ≠ [])
    (h2 : mapHas st.monitorData d.Host.Name = true ∨
      st.monitorData.length < MONITOR_DATA_MAX_ENTRIES) :
    agentPut rt st d j vc =
      (let br := broadcastToViewers rt
        ⟨mapSet st.monitorData d.Host.Name j, st.offlineMap, none⟩ vc
       ⟨br.1, true, br.2⟩) := by
  have hcond : ¬ (¬ mapHas st.monitorData d.Host.Name = true ∧
      MONITOR_DATA_MAX_ENTRIES ≤ st.monitorData.length) := by
    rcases h2 with h | h
    · exact fun hc => hc.1 h
    · exact fun hc => Nat.not_le_of_lt h hc.2
  unfold agentPut
  rw [if_neg h1, if_neg hcond]

theorem agentPut_accept_monitorData (rt : JsRuntime) (st : DOState)
    (d : MonitorData) (j : JSString) (vc : Nat) (h1 : d.Host.Name ≠ [])
    (h2 : mapHas st.monitorData d.Host.Name = true ∨
      st.monitorData.length < MONITOR_DATA_MAX_ENTRIES) :
    (agentPut rt st d j vc).st.monitorData = mapSet st.monitorData d.Host.Name j ∧
    (agentPut rt st d j vc).st.offlineMap = st.offlineMap ∧
    (agentPut rt st d j vc).broadcastCalled = true := by
  rw [agentPut_accept rt st d j vc h1 h2]
  exact ⟨broadcastToViewers_monitorData _ _ _, broadcastToViewers_offlineMap _ _ _, rfl⟩

theorem wsAgent_authed (rt : JsRuntime) (secret : JSString) (st : DOState)
    (att : Option Bool) (msg : WireMsg) (vc : Nat) (h : att.getD false = true) :
    webSocketMessageAgent rt secret st att msg vc =
      ⟨(handleAgentData rt st msg vc).st, true, [], none,
        (handleAgentData rt st msg vc).broadcastCalled, false⟩ := by
  unfold webSocketMessageAgent
  rw [h]
  simp

theorem wsAgent_unauth_bad (rt : JsRuntime) (secret : JSString) (st : DOState)
    (att : Option Bool) (msg : WireMsg) (vc : Nat) (h : att.getD false = false)
    (hne : wireText rt msg ≠ secret) :
    webSocketMessageAgent rt secret st att msg vc =
      ⟨st, false, [], some 1008, false, false⟩ := by
  unfold webSocketMessageAgent
  rw [h]
  simp [hne]

theorem wsAgent_unauth_ok (rt : JsRuntime) (secret : JSString) (st : DOState)
    (att : Option Bool) (msg : WireMsg) (vc : Nat) (h : att.getD false = false)
    (heq : wireText rt msg = secret) :
    webSocketMessageAgent rt secret st att msg vc =
      ⟨st, true, [strCodes "auth success"], none, false, true⟩ := by
  unfold webSocketMessageAgent
  rw [h]
  simp [heq]

/-! ## Store-invariant preservation -/

/-- `StoreInv` is preserved by the store update of an accepted put. -/
theorem storeInv_mapSet (rt : JsRuntime) (md : List (JSString × JSString))
    (d : MonitorData) (j : JSString) (hp : rt.parseMon j = some d)
    (hInv : StoreInv rt md)
    (hcap : mapHas md d.Host.Name = true ∨ md.length < MONITOR_DATA_MAX_ENTRIES) :
    StoreInv rt (mapSet md d.Host.Name j) := by
  obtain ⟨hlen, hnd, hval⟩ := hInv
  refine ⟨?_, nodup_keys_mapSet _ _ _ hnd, ?_⟩
  · by_cases hh : mapHas md d.Host.Name = true
    · rw [length_mapSet_mem _ _ _ hh]
      exact hlen
    · rw [length_mapSet_new _ _ _ hh]
      rcases hcap with h | h
      · exact absurd h hh
      · exact h
  · intro kv hkv
    rcases mem_mapSet _ _ _ _ hkv with h | h
    · subst h
      exact ⟨d, hp, rfl⟩
    · exact hval kv h

/-- `StoreInv` is preserved by `agentPut`. -/
theorem storeInv_agentPut (rt : JsRuntime) (st : DOState) (d : MonitorData)
    (j : JSString) (vc : Nat) (hp : rt.parseMon j = some d)
    (hInv : StoreInv rt st.monitorData) :
    StoreInv rt (agentPut rt st d j vc).st.monitorData := by
  by_cases h1 : d.Host.Name = []
  · rw [agentPut_name_empty rt st d j vc h1]
    exact hInv
  by_cases hcap : mapHas st.monitorData d.Host.Name = true ∨
      st.monitorData.length < MONITOR_DATA_MAX_ENTRIES
  · rw [(agentPut_accept_monitorData rt st d j vc h1 hcap).1]
    exact storeInv_mapSet rt st.monitorData d j hp hInv hcap
  · push_neg at hcap
    have h2 : mapHas st.monitorData d.Host.Name = false := by
      cases hb : mapHas st.monitorData d.Host.Name
      · rfl
      · exact absurd hb hcap.1
    rw [agentPut_reject rt st d j vc h1 h2 hcap.2]
    exact hInv

/-- `StoreInv` is preserved by `handleAgentData`. -/
theorem storeInv_handleAgentData (rt : JsRuntime) (st : DOState) (msg : WireMsg)
    (vc : Nat) (hInv : StoreInv rt st.monitorData) :
    StoreInv rt (handleAgentData rt st msg vc).st.monitorData := by
  cases hdec : decodeAgentMessage rt msg with
  | none =>
    rw [handleAgentData_decode_fail rt st msg vc hdec]
    exact hInv
  | some j =>
    cases hp : rt.parseMon j with
    | none =>
      rw [handleAgentData_parse_fail rt st msg vc j hdec hp]
      exact hInv
    | some d =>
      rw [handleAgentData_parsed rt st msg vc j d hdec hp]
      exact storeInv_agentPut rt st d j vc hp hInv

/-- `StoreInv` is preserved by every serialized Durable Object event. -/
theorem storeInv_applyOp (rt : JsRuntime) (secret : JSString) (st : DOState)
    (op : DOOp) (hInv : StoreInv rt st.monitorData) :
    StoreInv rt (applyOp rt secret st op).monitorData := by
  cases op with
  | agentMsg att msg vc =>
    show StoreInv rt (webSocketMessageAgent rt secret st att msg vc).st.monitorData
    cases ha : att.getD false
    · by_cases ht : wireText rt msg = secret
      · rw [wsAgent_unauth_ok rt secret st att msg vc ha ht]
        exact hInv
      · rw [wsAgent_unauth_bad rt secret st att msg vc ha ht]
        exact hInv
    · rw [wsAgent_authed rt secret st att msg vc ha]
      exact storeInv_handleAgentData rt st msg vc hInv
  | viewerMsg =>
    show StoreInv rt (getViewerPayload rt st).2.monitorData
    rw [getViewerPayload_monitorData]
    exact hInv
  | deleteHost name =>
    show StoreInv rt (rpcDeleteHost st name).st.monitorData
    unfold rpcDeleteHost
    by_cases h : ¬ mapHas st.monitorData name = true
    · rw [if_pos h]
      exact hInv
    · rw [if_neg h]
      obtain ⟨hlen, hnd, hval⟩ := hInv
      refine ⟨?_, nodup_keys_mapDelete _ _ hnd, ?_⟩
      · calc (mapDelete st.monitorData name).length
            ≤ st.monitorData.length := by
              have := (keys_mapDelete_sublist st.monitorData name).length_le
              simpa using this
          _ ≤ MONITOR_DATA_MAX_ENTRIES := hlen
      · intro kv hkv
        exact hval kv (mem_mapDelete _ _ _ hkv)
  | alarmTick e tok cid now =>
    show StoreInv rt (alarmStep rt e tok cid now st).1.monitorData
    unfold alarmStep
    exact hInv

/-- Iterated `agentPut`: a sequence of accepted-or-rejected agent packets
(each already decoded and parsed) applied to the state in order. -/
def agentPutFold (rt : JsRuntime) (vc : Nat) (st : DOState)
    (items : List (MonitorData × JSString)) : DOState :=
  items.foldl (fun s i => (agentPut rt s i.1 i.2 vc).st) st

theorem agentPutFold_length (rt : JsRuntime) (vc : Nat)
    (items : List (MonitorData × JSString)) : ∀ (st : DOState),
    (st.monitorData.map Prod.fst).Nodup →
    (items.map (fun i => i.1.Host.Name)).Nodup →
    (∀ i ∈ items, i.1.Host.Name ∉ st.monitorData.map Prod.fst ∧ i.1.Host.Name ≠ []) →
    st.monitorData.length ≤ MONITOR_DATA_MAX_ENTRIES →
    (agentPutFold rt vc st items).monitorData.length
      = min (st.monitorData.length + items.length) MONITOR_DATA_MAX_ENTRIES := by
  induction items with
  | nil =>
    intro st h1 h2 h3 h4
    simp only [agentPutFold, List.foldl_nil, List.length_nil, Nat.add_zero]
    omega
  | cons i rest ih =>
    intro st h1 h2 h3 h4
    obtain ⟨hfresh, hne⟩ := h3 i (List.mem_cons_self i rest)
    have hhasf : mapHas st.monitorData i.1.Host.Name = false := by
      cases hb : mapHas st.monitorData i.1.Host.Name
      · rfl
      · exact absurd ((mapHas_iff_mem_keys _ _).mp hb) hfresh
    rw [List.map_cons, List.nodup_cons] at h2
    have h3rest : ∀ x ∈ rest, x.1.Host.Name ∉ st.monitorData.map Prod.fst ∧
        x.1.Host.Name ≠ [] := fun x hx => h3 x (List.mem_cons_of_mem i hx)
    by_cases hfull : MONITOR_DATA_MAX_ENTRIES ≤ st.monitorData.length
    · have hrej := agentPut_reject rt st i.1 i.2 vc hne hhasf hfull
      have hst : (agentPut rt st i.1 i.2 vc).st = st := by rw [hrej]
      show (agentPutFold rt vc (agentPut rt st i.1 i.2 vc).st rest).monitorData.length = _
      rw [hst, ih st h1 h2.2 h3rest h4]
      simp only [List.length_cons]
      omega
    · have hacc := agentPut_accept_monitorData rt st i.1 i.2 vc hne
        (Or.inr (Nat.lt_of_not_le hfull))
      show (agentPutFold rt vc (agentPut rt st i.1 i.2 vc).st rest).monitorData.length = _
      have hkeys : ((agentPut rt st i.1 i.2 vc).st.monitorData.map Prod.fst)
          = st.monitorData.map Prod.fst ++ [i.1.Host.Name] := by
        rw [hacc.1]
        exact keys_mapSet_new _ _ _ (by rw [hhasf]; exact Bool.false_ne_true)
      have h1' : ((agentPut rt st i.1 i.2 vc).st.monitorData.map Prod.fst).Nodup := by
        rw [hacc.1]
        exact nodup_keys_mapSet _ _ _ h1
      have hlen' : (agentPut rt st i.1 i.2 vc).st.monitorData.length
          = st.monitorData.length + 1 := by
        rw [hacc.1]
        exact length_mapSet_new _ _ _ (by rw [hhasf]; exact Bool.false_ne_true)
      have h3' : ∀ x ∈ rest,
          x.1.Host.Name ∉ (agentPut rt st i.1 i.2 vc).st.monitorData.map Prod.fst ∧
          x.1.Host.Name ≠ [] := by
        intro x hx
        refine ⟨?_, (h3rest x hx).2⟩
        rw [hkeys]
        intro hmem
        rcases List.mem_append.mp hmem with hmem | hmem
        · exact (h3rest x hx).1 hmem
        · rw [List.mem_singleton] at hmem
          exact h2.1 (hmem ▸ List.mem_map_of_mem (fun i => i.1.Host.Name) hx)
      rw [ih _ h1' h2.2 h3' (by omega), hlen']
      simp only [List.length_cons]
      omega

/-- C1: under every serialized operation the monitor store keeps at most
`MONITOR_DATA_MAX_ENTRIES` (500) entries and every stored value parses to a
snapshot whose `Host.Name` equals its map key; a put for an absent identity
while the store is full returns with the state unchanged, no broadcast and
nothing sent; a put for a present identity replaces exactly that entry; and
feeding 501 packets with pairwise-distinct non-empty identities into the
empty store leaves exactly 500 entries. -/
theorem monitor_store_capacity_and_key_invariant (rt : JsRuntime) (secret : JSString) :
    (∀ st op, StoreInv rt st.monitorData →
      StoreInv rt (applyOp rt secret st op).monitorData)
    ∧
    (∀ st msg vc j d, decodeAgentMessage rt msg = some j → rt.parseMon j = some d →
      d.Host.Name ≠ [] → mapHas st.monitorData d.Host.Name = false →
      MONITOR_DATA_MAX_ENTRIES ≤ st.monitorData.length →
      handleAgentData rt st msg vc = ⟨st, false, []⟩)
    ∧
    (∀ st msg vc j d, decodeAgentMessage rt msg = some j → rt.parseMon j = some d →
      d.Host.Name ≠ [] → mapHas st.monitorData d.Host.Name = true →
      (handleAgentData rt st msg vc).st.monitorData
          = mapSet st.monitorData d.Host.Name j ∧
      mapLookup (handleAgentData rt st msg vc).st.monitorData d.Host.Name = some j ∧
      (∀ k, k ≠ d.Host.Name →
        mapLookup (handleAgentData rt st msg vc).st.monitorData k
          = mapLookup st.monitorData k))
    ∧
    (∀ vc (items : List (MonitorData × JSString)),
      (items.map (fun i => i.1.Host.Name)).Nodup →
      (∀ i ∈ items, i.1.Host.Name ≠ ([] : List Nat)) →
      items.length = MONITOR_DATA_MAX_ENTRIES + 1 →
      (agentPutFold rt vc ⟨[], [], none⟩ items).monitorData.length
        = MONITOR_DATA_MAX_ENTRIES) := by
  refine ⟨storeInv_applyOp rt secret, ?_, ?_, ?_⟩
  · intro st msg vc j d hdec hp h1 h2 h3
    rw [handleAgentData_parsed rt st msg vc j d hdec hp]
    exact agentPut_reject rt st d j vc h1 h2 h3
  · intro st msg vc j d hdec hp h1 h2
    rw [handleAgentData_parsed rt st msg vc j d hdec hp]
    have hmd := (agentPut_accept_monitorData rt st d j vc h1 (Or.inl h2)).1
    refine ⟨hmd, ?_, ?_⟩
    · rw [hmd]
      exact mapLookup_set_self _ _ _
    · intro k hk
      rw [hmd]
      exact mapLookup_set_ne _ _ _ _ hk
  · intro vc items h1 h2 h3
    have := agentPutFold_length rt vc items ⟨[], [], none⟩ (by simp) h1
      (fun i hi => ⟨by simp, h2 i hi⟩) (by simp)
    rw [this, h3]
    simp

/-! ## Concrete witness material -/

/-- An all-zero `HostState` for witness snapshots. -/
def zeroState : HostState := ⟨0, 0, 0, 0, 0, 0, 0, 0, 0, 0, 0⟩

/-- A witness snapshot with the given name and timestamp. -/
def mkMon (n : JSString) (ts : Int) : MonitorData :=
  ⟨⟨n, [], [], [], 0, 0, [], [], 0⟩, zeroState, ts⟩

/-- A concrete runtime for witnesses: gunzip is the identity on byte lists
and every string parses to a snapshot named by the string itself. -/
def rtW : JsRuntime :=
  ⟨fun b => some b, fun s => some (mkMon s 0), fun b => b⟩

/-- A full 500-entry store: names `[0] … [499]`, each stored under itself. -/
def md500 : List (JSString × JSString) :=
  (List.range 500).map (fun n => ([n], [n]))

/-- The DO state holding `md500`. -/
def st500 : DOState := ⟨md500, [], none⟩

/-- A one-entry store holding the name `[72]`. -/
def stH : DOState := ⟨[([72], [72])], [], none⟩

/-- 501 packets with pairwise-distinct non-empty names `[0] … [500]`. -/
def items501 : List (MonitorData × JSString) :=
  (List.range 501).map (fun n => (mkMon [n] 0, [n]))

theorem keys_md500 : md500.map Prod.fst = (List.range 500).map (fun n => [n]) := by
  simp [md500, List.map_map]

theorem length_md500 : md500.length = 500 := by
  rw [md500, List.length_map, List.length_range]

theorem storeInv_md500 : StoreInv rtW md500 := by
  refine ⟨by rw [length_md500, max_entries_val], ?_, ?_⟩
  · rw [keys_md500]
    refine List.Nodup.map ?_ (List.nodup_range 500)
    intro a b h
    simpa using h
  · intro kv hkv
    rw [md500, List.mem_map] at hkv
    obtain ⟨n, _, rfl⟩ := hkv
    exact ⟨mkMon [n] 0, rfl, rfl⟩

theorem not_has_600 : mapHas md500 [600] = false := by
  have hmem : ([600] : List Nat) ∉ md500.map Prod.fst := by
    intro h
    rw [keys_md500, List.mem_map] at h
    obtain ⟨n, hn, he⟩ := h
    rw [List.mem_range] at hn
    simp at he
    omega
  cases hb : mapHas md500 [600]
  · rfl
  · exact absurd ((mapHas_iff_mem_keys _ _).mp hb) hmem

set_option maxRecDepth 8000

/-- Witness for C1: the four parts of
`monitor_store_capacity_and_key_invariant` applied at concrete inputs. -/
theorem monitor_store_capacity_witness :
    StoreInv rtW st500.monitorData ∧
    handleAgentData rtW st500 (WireMsg.binary [600]) 0 = ⟨st500, false, []⟩ ∧
    (handleAgentData rtW stH (WireMsg.binary [72]) 0).st.monitorData
      = mapSet stH.monitorData [72] [72] ∧
    (agentPutFold rtW 0 ⟨[], [], none⟩ items501).monitorData.length
      = MONITOR_DATA_MAX_ENTRIES ∧
    StoreInv rtW (applyOp rtW [] st500 DOOp.viewerMsg).monitorData := by
  obtain ⟨p1, p2, p3, p4⟩ := monitor_store_capacity_and_key_invariant rtW []
  have hInv : StoreInv rtW st500.monitorData := storeInv_md500
  refine ⟨hInv, ?_, ?_, ?_, ?_⟩
  · have hl : st500.monitorData.length = 500 := length_md500
    exact p2 st500 (WireMsg.binary [600]) 0 [600] (mkMon [600] 0) rfl rfl
      (by simp [mkMon]) not_has_600 (by rw [max_entries_val, hl])
  · exact (p3 stH (WireMsg.binary [72]) 0 [72] (mkMon [72] 0) rfl rfl
      (by simp [mkMon]) (by decide)).1
  · refine p4 0 items501 ?_ ?_ ?_
    · have he : items501.map (fun i => i.1.Host.Name)
          = (List.range 501).map (fun n => [n]) := by
        simp [items501, List.map_map, mkMon]
      rw [he]
      refine List.Nodup.map ?_ (List.nodup_range 501)
      intro a b h
      simpa using h
    · intro i hi
      rw [items501, List.mem_map] at hi
      obtain ⟨n, _, rfl⟩ := hi
      simp [mkMon]
    · simp [items501, max_entries_val]
  · exact p1 st500 DOOp.viewerMsg hInv

/-! ## C2: the multi-strategy text decode -/

theorem map_mod256_eq_self (G : List Nat) (h : ∀ b ∈ G, b < 256) :
    G.map (fun c => c % 256) = G := by
  induction G with
  | nil => rfl
  | cons c cs ih =>
    rw [List.map_cons]
    rw [Nat.mod_eq_of_lt (h c (List.mem_cons_self c cs))]
    rw [ih (fun b hb => h b (List.mem_cons_of_mem c hb))]

/-- C2: a binary frame is gunzipped and then JSON-parsed; a text frame tries
direct JSON parse, then low-byte (`c & 0xff`) recovery plus gunzip, then
UTF-8 re-encoding plus gunzip, accepting the first success, and a total
failure yields `none` (message discarded, nothing raised).  Consequently a
gzip body `G` of a JSON snapshot `J` (gzip output is never itself valid
JSON, hypothesis `hG`) delivers `J` (a) as a binary frame and as a text
frame whose code units are the bytes of `G` — which covers both the
all-below-0x80 case (b) and the Latin-1 0x00–0xFF case (c), since every
gzip byte is below 0x100. -/
theorem decode_fallback_strategies (rt : JsRuntime) (G : List Nat) (J : JSString)
    (d : MonitorData)
    (hbytes : ∀ b ∈ G, b < 256)
    (hgz : rt.gunzip G = some J)
    (hJ : rt.parseMon J = some d)
    (hG : rt.parseMon G = none) :
    decodeAgentMessage rt (WireMsg.binary G) = some J ∧
    tryDecompressStringMessage rt G = some J ∧
    decodeAgentMessage rt (WireMsg.text G) = some J ∧
    (∀ s st vc, tryDecompressStringMessage rt s = none →
      handleAgentData rt st (WireMsg.text s) vc = AgentDataResult.mk st false []) := by
  have htext : tryDecompressStringMessage rt G = some J := by
    unfold tryDecompressStringMessage
    rw [hG]
    simp only [Option.isSome_none, Bool.false_eq_true, if_false]
    rw [map_mod256_eq_self G hbytes, hgz]
    simp [hJ]
  refine ⟨?_, htext, htext, ?_⟩
  · show rt.gunzip G = some J
    exact hgz
  · intro s st vc hfail
    exact handleAgentData_decode_fail rt st (WireMsg.text s) vc hfail

/-- A concrete runtime for the C2 witness: one gzip body `[31, 139, 8, 65]`
decompresses to the JSON text `[123, 125]` (`"{}"`), which is the only
string that parses. -/
def rtC2 : JsRuntime :=
  ⟨fun b => if b = [31, 139, 8, 65] then some [123, 125] else none,
   fun s => if s = [123, 125] then some (mkMon [65] 7) else none,
   fun b => b⟩

/-- Witness for C2 at the concrete gzip body of `rtC2`. -/
theorem decode_fallback_witness :
    decodeAgentMessage rtC2 (WireMsg.binary [31, 139, 8, 65]) = some [123, 125] ∧
    tryDecompressStringMessage rtC2 [31, 139, 8, 65] = some [123, 125] ∧
    decodeAgentMessage rtC2 (WireMsg.text [31, 139, 8, 65]) = some [123, 125] := by
  have h := decode_fallback_strategies rtC2 [31, 139, 8, 65] [123, 125]
    (mkMon [65] 7) (by decide)
    (by simp [rtC2]) (by simp [rtC2]) (by simp [rtC2])
  exact ⟨h.1, h.2.1, h.2.2.1⟩

/-! ## C9: failed or identity-less decodes are dropped with no effect -/

/-- C9: a message whose decode fails at every stage, or whose decoded JSON
lacks `Host.Name`, leaves the state (store, offline map, cached payload)
unchanged, reaches no broadcast, sends nothing, and never closes the agent
socket (the authenticated message path always reports `closeCode = none`);
totality of the definitions embeds the `try`/`catch` that keeps exceptions
from propagating. -/
theorem decode_failure_drops_message (rt : JsRuntime) (st : DOState) (vc : Nat) :
    (∀ s, tryDecompressStringMessage rt s = none →
      handleAgentData rt st (WireMsg.text s) vc = AgentDataResult.mk st false []) ∧
    (∀ b, rt.gunzip b = none →
      handleAgentData rt st (WireMsg.binary b) vc = AgentDataResult.mk st false []) ∧
    (∀ msg j, decodeAgentMessage rt msg = some j → rt.parseMon j = none →
      handleAgentData rt st msg vc = AgentDataResult.mk st false []) ∧
    (∀ msg j d, decodeAgentMessage rt msg = some j → rt.parseMon j = some d →
      d.Host.Name = [] →
      handleAgentData rt st msg vc = AgentDataResult.mk st false []) ∧
    (∀ secret att msg, att.getD false = true →
      (webSocketMessageAgent rt secret st att msg vc).closeCode = none ∧
      (webSocketMessageAgent rt secret st att msg vc).sent = []) := by
  refine ⟨?_, ?_, ?_, ?_, ?_⟩
  · intro s hfail
    exact handleAgentData_decode_fail rt st (WireMsg.text s) vc hfail
  · intro b hfail
    exact handleAgentData_decode_fail rt st (WireMsg.binary b) vc hfail
  · intro msg j hdec hp
    exact handleAgentData_parse_fail rt st msg vc j hdec hp
  · intro msg j d hdec hp hname
    rw [handleAgentData_parsed rt st msg vc j d hdec hp]
    exact agentPut_name_empty rt st d j vc hname
  · intro secret att msg ha
    rw [wsAgent_authed rt secret st att msg vc ha]
    exact ⟨rfl, rfl⟩

/-- A runtime on which every decode stage fails. -/
def rtNone : JsRuntime := ⟨fun _ => none, fun _ => none, fun b => b⟩

/-- A runtime on which `"{}"` is valid JSON parsing to an empty name. -/
def rtNoName : JsRuntime :=
  ⟨fun _ => none, fun s => if s = [123, 125] then some (mkMon [] 7) else none,
   fun b => b⟩

/-- Witness for C9: concrete dropped messages on `rtNone` (total decode
failure) and `rtC2` (valid JSON `"{}"` but `Host.Name` empty when the
parsed name is `[]`). -/
theorem decode_failure_witness :
    handleAgentData rtNone st500 (WireMsg.text [1, 2]) 3
      = AgentDataResult.mk st500 false [] ∧
    handleAgentData rtNone st500 (WireMsg.binary [1, 2]) 3
      = AgentDataResult.mk st500 false [] ∧
    handleAgentData rtNoName stH (WireMsg.text [123, 125]) 3
      = AgentDataResult.mk stH false [] ∧
    (webSocketMessageAgent rtNone [] st500 (some true) (WireMsg.text [9]) 0).closeCode
      = none := by
  obtain ⟨q1, q2, q3, q4, q5⟩ := decode_failure_drops_message rtNone st500 3
  obtain ⟨r1, r2, r3, r4, r5⟩ := decode_failure_drops_message rtNoName stH 3
  refine ⟨q1 [1, 2] (by decide), q2 [1, 2] rfl, ?_, ?_⟩
  · exact r4 (WireMsg.text [123, 125]) [123, 125] (mkMon [] 7) (by decide) (by decide) rfl
  · exact ((decode_failure_drops_message rtNone st500 0).2.2.2.2 [] (some true)
      (WireMsg.text [9]) rfl).1

/-! ## C4: producer authentication state machine -/

/-- C4: with an unauthenticated attachment (absent or `authed: false`) the
first message's text is compared against the shared secret: on mismatch the
socket is closed with policy code 1008, nothing is sent, the attachment
stays unauthenticated, and no data processing or broadcast happens; on
match exactly one `"auth success"` acknowledgement is sent, `authed: true`
is serialized into the attachment and the sweep alarm is ensured, again
with no data processing — the secret-bearing message is never treated as a
data frame.  With an authenticated attachment (re-read at the top of every
call) the message goes to `handleAgentData`. -/
theorem auth_state_machine (rt : JsRuntime) (secret : JSString) (st : DOState)
    (att : Option Bool) (msg : WireMsg) (vc : Nat) :
    (att.getD false = false → wireText rt msg ≠ secret →
      webSocketMessageAgent rt secret st att msg vc
        = AgentMsgEffects.mk st false [] (some 1008) false false) ∧
    (att.getD false = false → wireText rt msg = secret →
      webSocketMessageAgent rt secret st att msg vc
        = AgentMsgEffects.mk st true [strCodes "auth success"] none false true) ∧
    (att.getD false = true →
      webSocketMessageAgent rt secret st att msg vc
        = AgentMsgEffects.mk (handleAgentData rt st msg vc).st true [] none
            (handleAgentData rt st msg vc).broadcastCalled false) :=
  ⟨fun ha hne => wsAgent_unauth_bad rt secret st att msg vc ha hne,
   fun ha heq => wsAgent_unauth_ok rt secret st att msg vc ha heq,
   fun ha => wsAgent_authed rt secret st att msg vc ha⟩

/-- Witness for C4: concrete wrong-secret close, correct-secret single
acknowledgement (also from a missing attachment), and authenticated routing. -/
theorem auth_state_machine_witness :
    webSocketMessageAgent rtW (strCodes "s3cret") stH (some false)
        (WireMsg.text [1, 2]) 0
      = AgentMsgEffects.mk stH false [] (some 1008) false false ∧
    webSocketMessageAgent rtW (strCodes "s3cret") stH none
        (WireMsg.text (strCodes "s3cret")) 0
      = AgentMsgEffects.mk stH true [strCodes "auth success"] none false true ∧
    webSocketMessageAgent rtW (strCodes "s3cret") stH (some true)
        (WireMsg.text (strCodes "s3cret")) 0
      = AgentMsgEffects.mk
          (handleAgentData rtW stH (WireMsg.text (strCodes "s3cret")) 0).st true []
          none
          (handleAgentData rtW stH (WireMsg.text (strCodes "s3cret")) 0).broadcastCalled
          false := by
  obtain ⟨w1, w2, w3⟩ := auth_state_machine rtW (strCodes "s3cret") stH (some false)
    (WireMsg.text [1, 2]) 0
  obtain ⟨x1, x2, x3⟩ := auth_state_machine rtW (strCodes "s3cret") stH none
    (WireMsg.text (strCodes "s3cret")) 0
  obtain ⟨y1, y2, y3⟩ := auth_state_machine rtW (strCodes "s3cret") stH (some true)
    (WireMsg.text (strCodes "s3cret")) 0
  exact ⟨w1 rfl (by decide), x2 rfl rfl, y3 rfl⟩

/-! ## C7: delete semantics -/

theorem eq_of_nodup_keys (l : List (JSString × α)) (hn : (l.map Prod.fst).Nodup)
    (kv kv' : JSString × α) (h1 : kv ∈ l) (h2 : kv' ∈ l) (he : kv.1 = kv'.1) :
    kv = kv' := by
  induction l with
  | nil => cases h1
  | cons e t ih =>
    rw [List.map_cons, List.nodup_cons] at hn
    rcases List.mem_cons.mp h1 with h1 | h1 <;> rcases List.mem_cons.mp h2 with h2 | h2
    · rw [h1, h2]
    · have hm : kv'.1 ∈ List.map Prod.fst t := List.mem_map_of_mem Prod.fst h2
      rw [← he, h1] at hm
      exact absurd hm hn.1
    · have hm : kv.1 ∈ List.map Prod.fst t := List.mem_map_of_mem Prod.fst h1
      rw [he, h2] at hm
      exact absurd hm hn.1
    · exact ih hn.2 h1 h2

theorem getAllMonitorData_names (rt : JsRuntime) (md : List (JSString × JSString))
    (hval : ∀ kv ∈ md, ∃ m, rt.parseMon kv.2 = some m ∧ m.Host.Name = kv.1) :
    ∀ m ∈ getAllMonitorData rt md, m.Host.Name ∈ md.map Prod.fst := by
  intro m hm
  unfold getAllMonitorData at hm
  rw [List.mem_map] at hm
  obtain ⟨e, he, rfl⟩ := hm
  have he2 : e ∈ getAllEntries rt md :=
    (List.perm_insertionSort entryLe _).mem_iff.mp he
  unfold getAllEntries at he2
  rw [List.mem_filterMap] at he2
  obtain ⟨kv, hkv, hfe⟩ := he2
  obtain ⟨m0, hp0, hname⟩ := hval kv hkv
  rw [hp0] at hfe
  have he3 : (kv.1, m0) = e := Option.some.inj hfe
  rw [← he3]
  show m0.Host.Name ∈ _
  rw [hname]
  exact List.mem_map_of_mem Prod.fst hkv

theorem monitorKey_inj (a b : JSString) (h : monitorKey a = monitorKey b) : a = b := by
  unfold monitorKey at h
  exact List.append_cancel_left h

/-- C7: `deleteHost(name)` answers 404 exactly when `name` is absent from
the monitor store and then changes nothing (store, offline flags, cache,
durable storage); when present it removes the name from the store and the
offline flags, nulls the cached payload, deletes exactly the durable key
`monitor:<name>` (never any `host:`-prefixed key), and afterwards the name
is gone from the store, from `getAllMonitorData` and from the keys of
`persistMonitorSnapshot`. -/
theorem delete_host_semantics (rt : JsRuntime) (st : DOState) (name : JSString) :
    ((rpcDeleteHost st name).status = 404 ↔ mapHas st.monitorData name = false) ∧
    (mapHas st.monitorData name = false →
      rpcDeleteHost st name = DeleteResult.mk st 404 false []) ∧
    (mapHas st.monitorData name = true →
      (rpcDeleteHost st name).st
          = DOState.mk (mapDelete st.monitorData name)
              (mapDelete st.offlineMap name) none ∧
      (rpcDeleteHost st name).success = true ∧
      (rpcDeleteHost st name).storageDeletes = [monitorKey name]) ∧
    (∀ k ∈ (rpcDeleteHost st name).storageDeletes, ¬ (strCodes "host:" <+: k)) ∧
    ((st.monitorData.map Prod.fst).Nodup → mapHas st.monitorData name = true →
      mapLookup (rpcDeleteHost st name).st.monitorData name = none ∧
      monitorKey name ∉
        (persistMonitorSnapshot (rpcDeleteHost st name).st.monitorData).map Prod.fst ∧
      ((∀ kv ∈ st.monitorData, ∃ m, rt.parseMon kv.2 = some m ∧ m.Host.Name = kv.1) →
        ∀ m ∈ getAllMonitorData rt (rpcDeleteHost st name).st.monitorData,
          m.Host.Name ≠ name)) := by
  by_cases h : mapHas st.monitorData name = true
  · have hres : rpcDeleteHost st name
        = DeleteResult.mk
            (DOState.mk (mapDelete st.monitorData name)
              (mapDelete st.offlineMap name) none)
            200 true [monitorKey name] := by
      unfold rpcDeleteHost
      rw [if_neg (not_not_intro h)]
    refine ⟨?_, ?_, ?_, ?_, ?_⟩
    · rw [hres]
      constructor
      · intro h4
        cases h4
      · intro hf
        rw [h] at hf
        cases hf
    · intro hf
      rw [h] at hf
      cases hf
    · intro _
      rw [hres]
      exact ⟨rfl, rfl, rfl⟩
    · intro k hk
      rw [hres] at hk
      rw [List.mem_singleton] at hk
      subst hk
      rintro ⟨t, ht⟩
      rw [show strCodes "host:" = [104, 111, 115, 116, 58] from rfl] at ht
      rw [show monitorKey name
          = 109 :: (strCodes "onitor:" ++ name) from rfl] at ht
      rw [List.cons_append] at ht
      have := (List.cons.injEq _ _ _ _).mp ht
      exact absurd this.1 (by decide)
    · intro hn _
      have hlk : mapLookup (rpcDeleteHost st name).st.monitorData name = none := by
        rw [hres]
        exact mapLookup_delete_self st.monitorData name hn
      have hnotmem : name ∉ (rpcDeleteHost st name).st.monitorData.map Prod.fst := by
        intro hm
        have := (mapHas_iff_mem_keys _ name).mpr hm
        rw [mapHas, hlk] at this
        cases this
      refine ⟨hlk, ?_, ?_⟩
      · intro hm
        unfold persistMonitorSnapshot at hm
        rw [List.map_map, List.mem_map] at hm
        obtain ⟨kv, hkv, hkey⟩ := hm
        have hkn : kv.1 = name := monitorKey_inj kv.1 name hkey
        have hmm : kv.1 ∈ (rpcDeleteHost st name).st.monitorData.map Prod.fst :=
          List.mem_map_of_mem Prod.fst hkv
        rw [hkn] at hmm
        exact hnotmem hmm
      · intro hval m hm hname
        have hval2 : ∀ kv ∈ (rpcDeleteHost st name).st.monitorData,
            ∃ m0, rt.parseMon kv.2 = some m0 ∧ m0.Host.Name = kv.1 := by
          intro kv hkv
          rw [hres] at hkv
          exact hval kv (mem_mapDelete _ _ _ hkv)
        have hmm := getAllMonitorData_names rt _ hval2 m hm
        rw [hname] at hmm
        exact hnotmem hmm
  · have hf : mapHas st.monitorData name = false := by
      cases hb : mapHas st.monitorData name
      · rfl
      · exact absurd hb h
    have hres : rpcDeleteHost st name = DeleteResult.mk st 404 false [] := by
      unfold rpcDeleteHost
      rw [if_pos h]
    refine ⟨?_, fun _ => hres, ?_, ?_, ?_⟩
    · rw [hres]
      exact ⟨fun _ => hf, fun _ => rfl⟩
    · intro ht
      rw [ht] at hf
      cases hf
    · intro k hk
      rw [hres] at hk
      cases hk
    · intro _ ht
      rw [ht] at hf
      cases hf

/-- Witness for C7: `deleteHost("ghost")` on the empty store is a 404
no-op; deleting the present name `[72]` from `stH` removes it everywhere. -/
theorem delete_host_witness :
    rpcDeleteHost (DOState.mk [] [] none) (strCodes "ghost")
      = DeleteResult.mk (DOState.mk [] [] none) 404 false [] ∧
    (rpcDeleteHost stH [72]).st = DOState.mk [] [] none ∧
    mapLookup (rpcDeleteHost stH [72]).st.monitorData [72] = none ∧
    (∀ m ∈ getAllMonitorData rtW (rpcDeleteHost stH [72]).st.monitorData,
      m.Host.Name ≠ [72]) := by
  obtain ⟨g1, g2, g3, g4, g5⟩ :=
    delete_host_semantics rtW (DOState.mk [] [] none) (strCodes "ghost")
  obtain ⟨d1, d2, d3, d4, d5⟩ := delete_host_semantics rtW stH [72]
  have hhas : mapHas stH.monitorData [72] = true := by decide
  have hnd : (stH.monitorData.map Prod.fst).Nodup := by decide
  refine ⟨g2 rfl, ?_, (d5 hnd hhas).1, ?_⟩
  · rw [(d3 hhas).1]
    rfl
  · exact (d5 hnd hhas).2.2 (by
      intro kv hkv
      rw [show stH.monitorData = [([72], [72])] from rfl, List.mem_singleton] at hkv
      subst hkv
      exact ⟨mkMon [72] 0, rfl, rfl⟩)

/-! ## C6: restore retention -/

/-- Whether `restore` keeps a stored entry: it parses, has a truthy name,
and its timestamp is within the retention window. -/
def keepEntry (rt : JsRuntime) (now : Int) (kv : JSString × JSString) : Bool :=
  match rt.parseMon kv.2 with
  | some m =>
    decide (m.Host.Name ≠ []) && decide (now - SNAPSHOT_MAX_AGE_SEC < m.TimeStamp)
  | none => false

/-- The parsed name of a stored entry (irrelevant default when unparsable). -/
def parsedName (rt : JsRuntime) (kv : JSString × JSString) : JSString :=
  match rt.parseMon kv.2 with
  | some m => m.Host.Name
  | none => []

theorem keepEntry_spec (rt : JsRuntime) (now : Int) (kv : JSString × JSString)
    (h : keepEntry rt now kv = true) :
    ∃ m, rt.parseMon kv.2 = some m ∧ m.Host.Name ≠ [] ∧
      now - SNAPSHOT_MAX_AGE_SEC < m.TimeStamp ∧ parsedName rt kv = m.Host.Name := by
  unfold keepEntry at h
  cases hp : rt.parseMon kv.2 with
  | none =>
    simp only [hp] at h
    exact absurd h (by decide)
  | some m =>
    simp only [hp, Bool.and_eq_true, decide_eq_true_eq] at h
    refine ⟨m, rfl, h.1, h.2, ?_⟩
    unfold parsedName
    simp only [hp]

theorem restoreStep_eq (rt : JsRuntime) (now : Int)
    (acc : List (JSString × JSString) × List JSString) (kv : JSString × JSString) :
    restoreStep rt now acc kv =
      if keepEntry rt now kv = true then (mapSet acc.1 (parsedName rt kv) kv.2, acc.2)
      else (acc.1, acc.2 ++ [kv.1]) := by
  by_cases hk : keepEntry rt now kv = true
  · rw [if_pos hk]
    obtain ⟨m, hp, h1, h2, h3⟩ := keepEntry_spec rt now kv hk
    unfold restoreStep
    simp only [hp]
    rw [if_pos ⟨h1, h2⟩, h3]
  · rw [if_neg hk]
    unfold restoreStep
    cases hp : rt.parseMon kv.2 with
    | none => simp only [hp]
    | some m =>
      simp only [hp]
      have hnc : ¬ (m.Host.Name ≠ [] ∧ now - SNAPSHOT_MAX_AGE_SEC < m.TimeStamp) := by
        intro hc
        apply hk
        unfold keepEntry
        simp only [hp, Bool.and_eq_true, decide_eq_true_eq]
        exact hc
      rw [if_neg hnc]

theorem restore_deletes_char (rt : JsRuntime) (now : Int) :
    ∀ (entries : List (JSString × JSString))
      (acc : List (JSString × JSString) × List JSString),
    (entries.foldl (restoreStep rt now) acc).2
      = acc.2 ++ (entries.filter (fun kv => !keepEntry rt now kv)).map Prod.fst := by
  intro entries
  induction entries with
  | nil => intro acc; simp
  | cons kv rest ih =>
    intro acc
    rw [List.foldl_cons, ih, restoreStep_eq]
    by_cases hk : keepEntry rt now kv = true
    · rw [if_pos hk]
      simp [List.filter_cons, hk]
    · rw [if_neg hk]
      have hk' : keepEntry rt now kv = false := by
        cases hb : keepEntry rt now kv
        · rfl
        · exact absurd hb hk
      simp [List.filter_cons, hk']

theorem restore_lookup_preserve (rt : JsRuntime) (now : Int) :
    ∀ (entries : List (JSString × JSString))
      (acc : List (JSString × JSString) × List JSString) (name : JSString)
      (v : JSString),
    mapLookup acc.1 name = some v →
    (∀ kv ∈ entries, keepEntry rt now kv = true → parsedName rt kv = name →
      kv.2 = v) →
    mapLookup (entries.foldl (restoreStep rt now) acc).1 name = some v := by
  intro entries
  induction entries with
  | nil => intro acc name v h _; exact h
  | cons kv rest ih =>
    intro acc name v h hsame
    rw [List.foldl_cons, restoreStep_eq]
    by_cases hk : keepEntry rt now kv = true
    · rw [if_pos hk]
      by_cases hn : parsedName rt kv = name
      · refine ih _ name v ?_ (fun e he hke hne => hsame e (List.mem_cons_of_mem kv he) hke hne)
        rw [hn, hsame kv (List.mem_cons_self kv rest) hk hn]
        exact mapLookup_set_self _ _ _
      · refine ih _ name v ?_ (fun e he hke hne => hsame e (List.mem_cons_of_mem kv he) hke hne)
        rw [mapLookup_set_ne _ _ _ _ (fun hh => hn hh.symm)]
        exact h
    · rw [if_neg hk]
      exact ih _ name v h (fun e he hke hne => hsame e (List.mem_cons_of_mem kv he) hke hne)

theorem restore_lookup_of_mem (rt : JsRuntime) (now : Int) :
    ∀ (entries : List (JSString × JSString))
      (acc : List (JSString × JSString) × List JSString) (kv : JSString × JSString),
    kv ∈ entries → keepEntry rt now kv = true →
    (∀ e ∈ entries, keepEntry rt now e = true →
      parsedName rt e = parsedName rt kv → e.2 = kv.2) →
    mapLookup (entries.foldl (restoreStep rt now) acc).1 (parsedName rt kv)
      = some kv.2 := by
  intro entries
  induction entries with
  | nil => intro acc kv h; cases h
  | cons e rest ih =>
    intro acc kv hmem hk hsame
    rcases List.mem_cons.mp hmem with he | hmemr
    · subst he
      rw [List.foldl_cons, restoreStep_eq, if_pos hk]
      exact restore_lookup_preserve rt now rest _ _ _ (mapLookup_set_self _ _ _)
        (fun x hx hkx hnx => hsame x (List.mem_cons_of_mem kv hx) hkx hnx)
    · rw [List.foldl_cons]
      exact ih _ kv hmemr hk
        (fun x hx hkx hnx => hsame x (List.mem_cons_of_mem e hx) hkx hnx)

theorem restore_notmem (rt : JsRuntime) (now : Int) :
    ∀ (entries : List (JSString × JSString))
      (acc : List (JSString × JSString) × List JSString) (name : JSString),
    name ∉ acc.1.map Prod.fst →
    (∀ kv ∈ entries, keepEntry rt now kv = true → parsedName rt kv ≠ name) →
    name ∉ (entries.foldl (restoreStep rt now) acc).1.map Prod.fst := by
  intro entries
  induction entries with
  | nil => intro acc name h _; exact h
  | cons kv rest ih =>
    intro acc name h hnone
    rw [List.foldl_cons, restoreStep_eq]
    by_cases hk : keepEntry rt now kv = true
    · rw [if_pos hk]
      refine ih _ name ?_ (fun e he hke => hnone e (List.mem_cons_of_mem kv he) hke)
      intro hmem
      by_cases hh : mapHas acc.1 (parsedName rt kv) = true
      · rw [keys_mapSet_mem _ _ _ hh] at hmem
        exact h hmem
      · rw [keys_mapSet_new _ _ _ hh] at hmem
        rcases List.mem_append.mp hmem with hmem | hmem
        · exact h hmem
        · rw [List.mem_singleton] at hmem
          exact hnone kv (List.mem_cons_self kv rest) hk hmem.symm
    · rw [if_neg hk]
      exact ih _ name h (fun e he hke => hnone e (List.mem_cons_of_mem kv he) hke)

/-- C6: `restore()` (run once by the constructor before any request; the
resulting `initialState` has an empty offline map and no cached payload)
loads exactly the entries parsing to a snapshot with truthy name and
`TimeStamp > now - 300` into the store under their `Host.Name`, and
collects every other entry's key — and only those — into the single batched
delete list.  Hypotheses: storage listing keys are unique and a stored
value's key is `monitor:<parsed name>` (what `persist`/`deleteHost`
maintain). -/
theorem restore_retention (rt : JsRuntime) (now : Int)
    (entries : List (JSString × JSString))
    (hkeys : (entries.map Prod.fst).Nodup)
    (hcouple : ∀ kv ∈ entries, ∀ m, rt.parseMon kv.2 = some m →
      kv.1 = monitorKey m.Host.Name) :
    ((restoreMonitorSnapshot rt now entries).2
      = (entries.filter (fun kv => !keepEntry rt now kv)).map Prod.fst) ∧
    (∀ kv ∈ entries, ∀ m, rt.parseMon kv.2 = some m → m.Host.Name ≠ [] →
      now - SNAPSHOT_MAX_AGE_SEC < m.TimeStamp →
      mapLookup (restoreMonitorSnapshot rt now entries).1 m.Host.Name = some kv.2 ∧
      kv.1 ∉ (restoreMonitorSnapshot rt now entries).2) ∧
    (∀ kv ∈ entries, rt.parseMon kv.2 = none →
      kv.1 ∈ (restoreMonitorSnapshot rt now entries).2) ∧
    (∀ kv ∈ entries, ∀ m, rt.parseMon kv.2 = some m →
      m.TimeStamp ≤ now - SNAPSHOT_MAX_AGE_SEC →
      kv.1 ∈ (restoreMonitorSnapshot rt now entries).2 ∧
      m.Host.Name ∉ (restoreMonitorSnapshot rt now entries).1.map Prod.fst) ∧
    (initialState rt now entries
      = DOState.mk (restoreMonitorSnapshot rt now entries).1 [] none) := by
  have hchar : (restoreMonitorSnapshot rt now entries).2
      = (entries.filter (fun kv => !keepEntry rt now kv)).map Prod.fst := by
    unfold restoreMonitorSnapshot
    rw [restore_deletes_char rt now entries ([], [])]
    rfl
  have hmemdel : ∀ kv ∈ entries, keepEntry rt now kv = false →
      kv.1 ∈ (restoreMonitorSnapshot rt now entries).2 := by
    intro kv hkv hk
    rw [hchar]
    refine List.mem_map_of_mem Prod.fst ?_
    rw [List.mem_filter]
    exact ⟨hkv, by rw [hk]; rfl⟩
  refine ⟨hchar, ?_, ?_, ?_, rfl⟩
  · intro kv hkv m hp hname hts
    have hk : keepEntry rt now kv = true := by
      unfold keepEntry
      simp only [hp, Bool.and_eq_true, decide_eq_true_eq]
      exact ⟨hname, hts⟩
    have hpn : parsedName rt kv = m.Host.Name := by
      unfold parsedName
      simp only [hp]
    have hsame : ∀ e ∈ entries, keepEntry rt now e = true →
        parsedName rt e = parsedName rt kv → e.2 = kv.2 := by
      intro e he hke hne
      obtain ⟨me, hpe, _, _, hpne⟩ := keepEntry_spec rt now e hke
      have hkey : e.1 = kv.1 := by
        rw [hcouple e he me hpe, hcouple kv hkv m hp]
        rw [← hpne, hne, hpn]
      exact congrArg Prod.snd (eq_of_nodup_keys entries hkeys e kv he hkv hkey)
    constructor
    · have := restore_lookup_of_mem rt now entries ([], []) kv hkv hk hsame
      rw [hpn] at this
      exact this
    · intro hmem
      rw [hchar, List.mem_map] at hmem
      obtain ⟨e, he, he1⟩ := hmem
      rw [List.mem_filter] at he
      have : e = kv := eq_of_nodup_keys entries hkeys e kv he.1 hkv he1
      rw [this, hk] at he
      exact absurd he.2 (by decide)
  · intro kv hkv hp
    refine hmemdel kv hkv ?_
    unfold keepEntry
    simp only [hp]
  · intro kv hkv m hp hts
    have hk : keepEntry rt now kv = false := by
      unfold keepEntry
      simp only [hp]
      have : decide (now - SNAPSHOT_MAX_AGE_SEC < m.TimeStamp) = false := by
        rw [decide_eq_false_iff_not]
        exact Int.not_lt.mpr hts
      rw [this, Bool.and_false]
    refine ⟨hmemdel kv hkv hk, ?_⟩
    refine restore_notmem rt now entries ([], []) m.Host.Name (by simp) ?_
    intro e he hke hpe
    obtain ⟨me, hpme, _, _, hpne⟩ := keepEntry_spec rt now e hke
    have hkey : e.1 = kv.1 := by
      rw [hcouple e he me hpme, hcouple kv hkv m hp]
      rw [← hpne, hpe]
    have : e = kv := eq_of_nodup_keys entries hkeys e kv he hkv hkey
    rw [this, hk] at hke
    exact absurd hke (by decide)

/-- A concrete runtime for the C6 witness: `[65]` parses to a snapshot aged
`now - 400` and `[66]` to one aged `now - 100` (with `now = 1000`). -/
def rt6 : JsRuntime :=
  ⟨fun _ => none,
   fun s =>
     if s = [65] then some (mkMon [65] 600)
     else if s = [66] then some (mkMon [66] 900)
     else none,
   fun b => b⟩

/-- The two stored entries of the C6 witness. -/
def entries6 : List (JSString × JSString) :=
  [(monitorKey [65], [65]), (monitorKey [66], [66])]

/-- Witness for C6: with threshold 300 and `now = 1000`, the snapshot aged
`now - 400` is dropped and its key deleted while the one aged `now - 100`
is loaded under its name. -/
theorem restore_retention_witness :
    mapLookup (restoreMonitorSnapshot rt6 1000 entries6).1 [66] = some [66] ∧
    monitorKey [65] ∈ (restoreMonitorSnapshot rt6 1000 entries6).2 ∧
    ([65] : List Nat) ∉ (restoreMonitorSnapshot rt6 1000 entries6).1.map Prod.fst ∧
    monitorKey [66] ∉ (restoreMonitorSnapshot rt6 1000 entries6).2 := by
  have hkeys : (entries6.map Prod.fst).Nodup := by decide
  have hcouple : ∀ kv ∈ entries6, ∀ m, rt6.parseMon kv.2 = some m →
      kv.1 = monitorKey m.Host.Name := by
    intro kv hkv m hp
    rw [entries6] at hkv
    rcases List.mem_cons.mp hkv with h | h
    · subst h
      cases hp
      rfl
    · rw [List.mem_singleton] at h
      subst h
      cases hp
      rfl
  obtain ⟨c1, c2, c3, c4, c5⟩ := restore_retention rt6 1000 entries6 hkeys hcouple
  have hmemA : (monitorKey [65], ([65] : JSString)) ∈ entries6 := by
    rw [entries6]
    exact List.mem_cons_self _ _
  have hmemB : (monitorKey [66], ([66] : JSString)) ∈ entries6 := by
    rw [entries6]
    exact List.mem_cons_of_mem _ (List.mem_singleton.mpr rfl)
  have hB := c2 (monitorKey [66], [66]) hmemB (mkMon [66] 900) (by decide)
    (by decide) (by decide)
  have hA := c4 (monitorKey [65], [65]) hmemA (mkMon [65] 600) (by decide) (by decide)
  exact ⟨hB.1, hA.1, hA.2, hB.2⟩

/-! ## C5: offline/online sweep debounce -/

/-- The transition `checkOfflineStatus` performs for one snapshot against a
given offline map: skip falsy names; a stale snapshot (`TimeStamp <
now - threshold`) not currently flagged yields an offline notification; a
fresh snapshot currently flagged yields an online notification; anything
else yields none. -/
def sweepTransition (now threshold : Int) (om : List (JSString × Bool))
    (m : MonitorData) : Option Notif :=
  if m.Host.Name = [] then none
  else if m.TimeStamp < now - threshold then
    if (mapLookup om m.Host.Name).getD false then none
    else some (Notif.offline m.Host.Name)
  else
    if (mapLookup om m.Host.Name).getD false then some (Notif.online m.Host.Name)
    else none

theorem sweepTransition_congr (now threshold : Int)
    (om1 om2 : List (JSString × Bool)) (m : MonitorData)
    (h : mapLookup om1 m.Host.Name = mapLookup om2 m.Host.Name) :
    sweepTransition now threshold om1 m = sweepTransition now threshold om2 m := by
  unfold sweepTransition
  rw [h]

theorem sweepTransition_shape (now threshold : Int) (om : List (JSString × Bool))
    (m : MonitorData) (nf : Notif)
    (h : sweepTransition now threshold om m = some nf) :
    (nf = Notif.offline m.Host.Name ∨ nf = Notif.online m.Host.Name) ∧
    m.Host.Name ≠ [] := by
  unfold sweepTransition at h
  by_cases h1 : m.Host.Name = []
  · rw [if_pos h1] at h
    cases h
  · rw [if_neg h1] at h
    refine ⟨?_, h1⟩
    by_cases h2 : m.TimeStamp < now - threshold
    · rw [if_pos h2] at h
      by_cases h3 : (mapLookup om m.Host.Name).getD false
      · rw [if_pos h3] at h
        cases h
      · rw [if_neg h3] at h
        exact Or.inl (Option.some.inj h).symm
    · rw [if_neg h2] at h
      by_cases h3 : (mapLookup om m.Host.Name).getD false
      · rw [if_pos h3] at h
        exact Or.inr (Option.some.inj h).symm
      · rw [if_neg h3] at h
        cases h

/-- The loop body rewritten through `sweepTransition`. -/
theorem checkOfflineStep_eq (now threshold : Int)
    (acc : List (JSString × Bool) × List Notif) (m : MonitorData) :
    checkOfflineStep now threshold acc m =
      match sweepTransition now threshold acc.1 m with
      | some (Notif.offline n) => (mapSet acc.1 n true, acc.2 ++ [Notif.offline n])
      | some (Notif.online n) => (mapDelete acc.1 n, acc.2 ++ [Notif.online n])
      | none => acc := by
  unfold checkOfflineStep sweepTransition
  by_cases h1 : m.Host.Name = []
  · rw [if_pos h1, if_pos h1]
  · rw [if_neg h1, if_neg h1]
    by_cases h2 : m.TimeStamp < now - threshold
    · rw [if_pos h2, if_pos h2]
      by_cases h3 : (mapLookup acc.1 m.Host.Name).getD false
      · rw [if_pos h3, if_pos h3]
      · rw [if_neg h3, if_neg h3]
    · rw [if_neg h2, if_neg h2]
      by_cases h3 : (mapLookup acc.1 m.Host.Name).getD false
      · rw [if_pos h3, if_pos h3]
      · rw [if_neg h3, if_neg h3]

theorem checkOfflineStep_lookup_other (now threshold : Int)
    (acc : List (JSString × Bool) × List Notif) (m : MonitorData) (n : JSString)
    (h : n ≠ m.Host.Name) :
    mapLookup (checkOfflineStep now threshold acc m).1 n = mapLookup acc.1 n := by
  rw [checkOfflineStep_eq]
  cases ht : sweepTransition now threshold acc.1 m with
  | none => rfl
  | some nf =>
    have hs := sweepTransition_shape now threshold acc.1 m nf ht
    rcases hs.1 with hnf | hnf <;> subst hnf
    · exact mapLookup_set_ne _ _ _ _ h
    · exact mapLookup_delete_ne _ _ _ h

theorem checkOfflineStep_nodup (now threshold : Int)
    (acc : List (JSString × Bool) × List Notif) (m : MonitorData)
    (h : (acc.1.map Prod.fst).Nodup) :
    ((checkOfflineStep now threshold acc m).1.map Prod.fst).Nodup := by
  rw [checkOfflineStep_eq]
  cases ht : sweepTransition now threshold acc.1 m with
  | none => exact h
  | some nf =>
    have hs := sweepTransition_shape now threshold acc.1 m nf ht
    rcases hs.1 with hnf | hnf <;> subst hnf
    · exact nodup_keys_mapSet _ _ _ h
    · exact nodup_keys_mapDelete _ _ h

theorem sweep_preserve_lookup (now threshold : Int) :
    ∀ (monitors : List MonitorData)
      (acc : List (JSString × Bool) × List Notif) (n : JSString),
    (∀ x ∈ monitors, n ≠ x.Host.Name) →
    mapLookup (monitors.foldl (checkOfflineStep now threshold) acc).1 n
      = mapLookup acc.1 n := by
  intro monitors
  induction monitors with
  | nil => intro acc n _; rfl
  | cons x rest ih =>
    intro acc n h
    rw [List.foldl_cons]
    rw [ih _ n (fun y hy => h y (List.mem_cons_of_mem x hy))]
    exact checkOfflineStep_lookup_other now threshold acc x n
      (h x (List.mem_cons_self x rest))

theorem sweep_notifs (now threshold : Int) :
    ∀ (monitors : List MonitorData)
      (acc : List (JSString × Bool) × List Notif),
    ((monitors.map (fun m => m.Host.Name)).Nodup) →
    (monitors.foldl (checkOfflineStep now threshold) acc).2
      = acc.2 ++ monitors.filterMap (sweepTransition now threshold acc.1) := by
  intro monitors
  induction monitors with
  | nil => intro acc _; simp
  | cons m rest ih =>
    intro acc hnd
    rw [List.map_cons, List.nodup_cons] at hnd
    rw [List.foldl_cons]
    rw [ih _ hnd.2]
    have hcongr : rest.filterMap
        (sweepTransition now threshold (checkOfflineStep now threshold acc m).1)
        = rest.filterMap (sweepTransition now threshold acc.1) := by
      refine List.filterMap_congr ?_
      intro x hx
      refine sweepTransition_congr now threshold _ _ x ?_
      refine checkOfflineStep_lookup_other now threshold acc m x.Host.Name ?_
      intro he
      exact hnd.1 (he ▸ List.mem_map_of_mem (fun m => m.Host.Name) hx)
    rw [hcongr]
    rw [checkOfflineStep_eq]
    cases ht : sweepTransition now threshold acc.1 m with
    | none => simp [List.filterMap_cons, ht]
    | some nf =>
      rcases nf with n | n <;> simp [List.filterMap_cons, ht]

theorem step_self_flag (now threshold : Int)
    (acc : List (JSString × Bool) × List Notif) (m : MonitorData)
    (hn : m.Host.Name ≠ []) (hnd : (acc.1.map Prod.fst).Nodup) :
    (mapLookup (checkOfflineStep now threshold acc m).1 m.Host.Name).getD false
      = decide (m.TimeStamp < now - threshold) := by
  simp only [checkOfflineStep]
  rw [if_neg hn]
  by_cases h2 : m.TimeStamp < now - threshold
  · rw [if_pos h2]
    cases h3 : (mapLookup acc.1 m.Host.Name).getD false
    · rw [if_neg Bool.false_ne_true]
      show (mapLookup (mapSet acc.1 m.Host.Name true) m.Host.Name).getD false = _
      rw [mapLookup_set_self]
      simp [h2]
    · rw [if_pos rfl]
      rw [h3]
      simp [h2]
  · rw [if_neg h2]
    cases h3 : (mapLookup acc.1 m.Host.Name).getD false
    · rw [if_neg Bool.false_ne_true]
      rw [h3]
      simp [h2]
    · rw [if_pos rfl]
      show (mapLookup (mapDelete acc.1 m.Host.Name) m.Host.Name).getD false = _
      rw [mapLookup_delete_self _ _ hnd]
      simp [h2]

theorem sweep_final_flag (now threshold : Int) :
    ∀ (monitors : List MonitorData)
      (acc : List (JSString × Bool) × List Notif) (m : MonitorData),
    (monitors.map (fun m => m.Host.Name)).Nodup →
    (acc.1.map Prod.fst).Nodup →
    m ∈ monitors → m.Host.Name ≠ [] →
    (mapLookup (monitors.foldl (checkOfflineStep now threshold) acc).1
        m.Host.Name).getD false
      = decide (m.TimeStamp < now - threshold) := by
  intro monitors
  induction monitors with
  | nil => intro acc m _ _ hm; cases hm
  | cons x rest ih =>
    intro acc m hnd hacc hm hn
    rw [List.map_cons, List.nodup_cons] at hnd
    rw [List.foldl_cons]
    rcases List.mem_cons.mp hm with hm | hm
    · subst hm
      rw [sweep_preserve_lookup now threshold rest _ m.Host.Name
        (fun y hy he => hnd.1 (he ▸ List.mem_map_of_mem (fun m => m.Host.Name) hy))]
      exact step_self_flag now threshold acc m hn hacc
    · exact ih _ m hnd.2 (checkOfflineStep_nodup now threshold acc x hacc) hm hn

theorem eq_of_nodup_map {α β : Type _} (f : α → β) (l : List α)
    (hn : (l.map f).Nodup) (x y : α) (hx : x ∈ l) (hy : y ∈ l)
    (he : f x = f y) : x = y := by
  induction l with
  | nil => cases hx
  | cons e t ih =>
    rw [List.map_cons, List.nodup_cons] at hn
    rcases List.mem_cons.mp hx with hx | hx <;> rcases List.mem_cons.mp hy with hy | hy
    · rw [hx, hy]
    · have hm : f y ∈ List.map f t := List.mem_map_of_mem f hy
      rw [← he, hx] at hm
      exact absurd hm hn.1
    · have hm : f x ∈ List.map f t := List.mem_map_of_mem f hx
      rw [he, hy] at hm
      exact absurd hm hn.1
    · exact ih hn.2 hx hy

theorem count_filterMap_zero {α β : Type _} [DecidableEq β] (f : α → Option β)
    (b : β) : ∀ l : List α, (∀ y ∈ l, f y ≠ some b) →
    ((l.filterMap f).count b) = 0 := by
  intro l
  induction l with
  | nil => intro _; rfl
  | cons y rest ih =>
    intro h
    rw [List.filterMap_cons]
    cases hf : f y with
    | none => exact ih (fun z hz => h z (List.mem_cons_of_mem y hz))
    | some c =>
      have hc : c ≠ b := by
        intro hcb
        exact h y (List.mem_cons_self y rest) (by rw [hf, hcb])
      rw [List.count_cons]
      rw [ih (fun z hz => h z (List.mem_cons_of_mem y hz))]
      simpa using hc

theorem count_filterMap_one {α β : Type _} [DecidableEq β] (f : α → Option β)
    (b : β) : ∀ l : List α, l.Nodup → ∀ x ∈ l, f x = some b →
    (∀ y ∈ l, f y = some b → y = x) → ((l.filterMap f).count b) = 1 := by
  intro l
  induction l with
  | nil => intro _ x hx; cases hx
  | cons y rest ih =>
    intro hnd x hx hfx huniq
    rw [List.nodup_cons] at hnd
    rcases List.mem_cons.mp hx with hxy | hxr
    · subst hxy
      rw [List.filterMap_cons, hfx]
      rw [List.count_cons]
      have hz : (rest.filterMap f).count b = 0 := by
        refine count_filterMap_zero f b rest ?_
        intro z hz hfz
        have : z = x := huniq z (List.mem_cons_of_mem x hz) hfz
        rw [this] at hz
        exact hnd.1 hz
      rw [hz]
      simp
    · rw [List.filterMap_cons]
      cases hf : f y with
      | none =>
        exact ih hnd.2 x hxr hfx
          (fun z hz hfz => huniq z (List.mem_cons_of_mem y hz) hfz)
      | some c =>
        have hc : c ≠ b := by
          intro hcb
          have hyx : y = x := huniq y (List.mem_cons_self y rest) (by rw [hf, hcb])
          subst hyx
          exact hnd.1 hxr
        rw [List.count_cons]
        rw [ih hnd.2 x hxr hfx
          (fun z hz hfz => huniq z (List.mem_cons_of_mem y hz) hfz)]
        simpa using hc

/-- C5: with a non-empty token and a chat id other than `"0"`, one sweep
over snapshots with pairwise-distinct identities emits exactly the
per-snapshot transitions: a stale snapshot (`TimeStamp < now - threshold`)
whose identity is not flagged gets its flag set and exactly one offline
notification; a fresh snapshot whose identity is flagged gets the flag
cleared and exactly one online notification; after the sweep the flag of
every processed identity equals its staleness; a snapshot with no staleness
change contributes zero notifications, and a sweep in which nothing changed
emits none at all.  (Notifications are dispatched with
`Promise.allSettled` and `sendTGMessage` swallows its own errors, so
delivery failures cannot affect this result, which is independent of
delivery outcomes.) -/
theorem offline_sweep_debounce (now threshold : Int) (token chatId : JSString)
    (monitors : List MonitorData) (om : List (JSString × Bool))
    (htok : token ≠ []) (hcid : chatId ≠ []) (hcid0 : chatId ≠ strCodes "0")
    (hnd : (monitors.map (fun m => m.Host.Name)).Nodup)
    (hom : (om.map Prod.fst).Nodup) :
    (checkOfflineStatus now threshold token chatId monitors om).2
      = monitors.filterMap (sweepTransition now threshold om) ∧
    (∀ m ∈ monitors, m.Host.Name ≠ [] →
      ((mapLookup (checkOfflineStatus now threshold token chatId monitors om).1
          m.Host.Name).getD false = decide (m.TimeStamp < now - threshold)) ∧
      (m.TimeStamp < now - threshold →
        (mapLookup om m.Host.Name).getD false = false →
        ((checkOfflineStatus now threshold token chatId monitors om).2).count
          (Notif.offline m.Host.Name) = 1) ∧
      (¬ m.TimeStamp < now - threshold →
        (mapLookup om m.Host.Name).getD false = true →
        ((checkOfflineStatus now threshold token chatId monitors om).2).count
          (Notif.online m.Host.Name) = 1) ∧
      (sweepTransition now threshold om m = none →
        ((checkOfflineStatus now threshold token chatId monitors om).2).count
            (Notif.offline m.Host.Name) = 0 ∧
        ((checkOfflineStatus now threshold token chatId monitors om).2).count
            (Notif.online m.Host.Name) = 0)) ∧
    ((∀ m ∈ monitors, sweepTransition now threshold om m = none) →
      (checkOfflineStatus now threshold token chatId monitors om).2 = []) := by
  have hguard : ¬ (token = [] ∨ chatId = [] ∨ chatId = strCodes "0") := by
    rintro (h | h | h)
    exacts [htok h, hcid h, hcid0 h]
  have hstat : checkOfflineStatus now threshold token chatId monitors om
      = monitors.foldl (checkOfflineStep now threshold) (om, []) := by
    unfold checkOfflineStatus
    rw [if_neg hguard]
  have hsnd : (checkOfflineStatus now threshold token chatId monitors om).2
      = monitors.filterMap (sweepTransition now threshold om) := by
    rw [hstat, sweep_notifs now threshold monitors (om, []) hnd]
    rfl
  have hmon : monitors.Nodup := hnd.of_map
  have huniq_off : ∀ m ∈ monitors, ∀ y ∈ monitors,
      sweepTransition now threshold om y = some (Notif.offline m.Host.Name) →
      y = m := by
    intro m hm y hy ht
    obtain ⟨hsh, _⟩ := sweepTransition_shape now threshold om y _ ht
    rcases hsh with hsh | hsh
    · have hname : y.Host.Name = m.Host.Name := by
        have := (Notif.offline.injEq _ _).mp hsh
        exact this.symm
      exact eq_of_nodup_map (fun m => m.Host.Name) monitors hnd y m hy hm hname
    · cases hsh
  have huniq_on : ∀ m ∈ monitors, ∀ y ∈ monitors,
      sweepTransition now threshold om y = some (Notif.online m.Host.Name) →
      y = m := by
    intro m hm y hy ht
    obtain ⟨hsh, _⟩ := sweepTransition_shape now threshold om y _ ht
    rcases hsh with hsh | hsh
    · cases hsh
    · have hname : y.Host.Name = m.Host.Name := by
        have := (Notif.online.injEq _ _).mp hsh
        exact this.symm
      exact eq_of_nodup_map (fun m => m.Host.Name) monitors hnd y m hy hm hname
  refine ⟨hsnd, ?_, ?_⟩
  · intro m hm hn
    refine ⟨?_, ?_, ?_, ?_⟩
    · rw [hstat]
      exact sweep_final_flag now threshold monitors (om, []) m hnd hom hm hn
    · intro h2 h3
      have ht : sweepTransition now threshold om m
          = some (Notif.offline m.Host.Name) := by
        unfold sweepTransition
        rw [if_neg hn, if_pos h2, h3]
        rw [if_neg Bool.false_ne_true]
      rw [hsnd]
      exact count_filterMap_one _ _ monitors hmon m hm ht
        (fun y hy hfy => huniq_off m hm y hy hfy)
    · intro h2 h3
      have ht : sweepTransition now threshold om m
          = some (Notif.online m.Host.Name) := by
        unfold sweepTransition
        rw [if_neg hn, if_neg h2, h3]
        rw [if_pos rfl]
      rw [hsnd]
      exact count_filterMap_one _ _ monitors hmon m hm ht
        (fun y hy hfy => huniq_on m hm y hy hfy)
    · intro ht
      rw [hsnd]
      constructor
      · refine count_filterMap_zero _ _ monitors ?_
        intro y hy hfy
        have : y = m := huniq_off m hm y hy hfy
        rw [this, ht] at hfy
        cases hfy
      · refine count_filterMap_zero _ _ monitors ?_
        intro y hy hfy
        have : y = m := huniq_on m hm y hy hfy
        rw [this, ht] at hfy
        cases hfy
  · intro hall
    rw [hsnd]
    exact List.filterMap_eq_nil_iff.mpr hall

/-- Witness for C5: with `now = 1000`, threshold 60: a snapshot observed at
`now - 100` with no flag yields exactly one offline notification and sets
the flag; the identical second sweep emits nothing; a snapshot observed at
`now` with the flag set yields exactly one online notification. -/
theorem offline_sweep_witness :
    (checkOfflineStatus 1000 60 [116] [49] [mkMon [65] 900] []).2.count
        (Notif.offline [65]) = 1 ∧
    (mapLookup (checkOfflineStatus 1000 60 [116] [49] [mkMon [65] 900] []).1
        [65]).getD false = true ∧
    (checkOfflineStatus 1000 60 [116] [49] [mkMon [65] 900] [([65], true)]).2
        = [] ∧
    (checkOfflineStatus 1000 60 [116] [49] [mkMon [65] 1000] [([65], true)]).2.count
        (Notif.online [65]) = 1 := by
  obtain ⟨a1, a2, a3⟩ := offline_sweep_debounce 1000 60 [116] [49]
    [mkMon [65] 900] [] (by decide) (by decide) (by decide) (by decide) (by decide)
  obtain ⟨b1, b2, b3⟩ := offline_sweep_debounce 1000 60 [116] [49]
    [mkMon [65] 900] [([65], true)] (by decide) (by decide) (by decide)
    (by decide) (by decide)
  obtain ⟨c1, c2, c3⟩ := offline_sweep_debounce 1000 60 [116] [49]
    [mkMon [65] 1000] [([65], true)] (by decide) (by decide) (by decide)
    (by decide) (by decide)
  have hma : mkMon [65] 900 ∈ [mkMon [65] 900] := List.mem_cons_self _ _
  have hmc : mkMon [65] 1000 ∈ [mkMon [65] 1000] := List.mem_cons_self _ _
  obtain ⟨af, aoff, _, _⟩ := a2 (mkMon [65] 900) hma (by decide)
  obtain ⟨_, _, con, _⟩ := c2 (mkMon [65] 1000) hmc (by decide)
  refine ⟨aoff (by decide) (by decide), ?_, ?_, con (by decide) (by decide)⟩
  · have af2 : (mkMon ([65] : JSString) 900).Host.Name = [65] := rfl
    rw [af2] at af
    rw [af]
    decide
  · exact b3 (by decide)

/-! ## C8: broadcast-cache memoization and invalidation -/

theorem cacheInv_getViewerPayload (rt : JsRuntime) (st : DOState)
    (h : CacheInv rt st) : CacheInv rt (getViewerPayload rt st).2 := by
  unfold getViewerPayload
  cases hc : st.cachedViewerPayload with
  | some p =>
    simp only [hc]
    exact h
  | none =>
    intro p hp
    simp only at hp
    have hp2 : some (serializeMonitors (getAllMonitorData rt st.monitorData))
        = some p := hp
    rw [← Option.some.inj hp2]

theorem cacheInv_broadcast (rt : JsRuntime) (st : DOState) (vc : Nat)
    (h : CacheInv rt st) : CacheInv rt (broadcastToViewers rt st vc).1 := by
  unfold broadcastToViewers
  by_cases hv : vc = 0
  · rw [if_pos hv]
    exact h
  · rw [if_neg hv]
    exact cacheInv_getViewerPayload rt st h

theorem cacheInv_none (rt : JsRuntime) (st : DOState)
    (h : st.cachedViewerPayload = none) : CacheInv rt st := by
  intro p hp
  rw [h] at hp
  cases hp

theorem cacheInv_agentPut (rt : JsRuntime) (st : DOState) (d : MonitorData)
    (j : JSString) (vc : Nat) (h : CacheInv rt st) :
    CacheInv rt (agentPut rt st d j vc).st := by
  unfold agentPut
  by_cases h1 : d.Host.Name = []
  · rw [if_pos h1]
    exact h
  rw [if_neg h1]
  by_cases h2 : ¬ mapHas st.monitorData d.Host.Name = true ∧
      MONITOR_DATA_MAX_ENTRIES ≤ st.monitorData.length
  · rw [if_pos h2]
    exact h
  · rw [if_neg h2]
    exact cacheInv_broadcast rt _ vc (cacheInv_none rt _ rfl)

theorem cacheInv_handleAgentData (rt : JsRuntime) (st : DOState) (msg : WireMsg)
    (vc : Nat) (h : CacheInv rt st) :
    CacheInv rt (handleAgentData rt st msg vc).st := by
  cases hdec : decodeAgentMessage rt msg with
  | none =>
    rw [handleAgentData_decode_fail rt st msg vc hdec]
    exact h
  | some j =>
    cases hp : rt.parseMon j with
    | none =>
      rw [handleAgentData_parse_fail rt st msg vc j hdec hp]
      exact h
    | some d =>
      rw [handleAgentData_parsed rt st msg vc j d hdec hp]
      exact cacheInv_agentPut rt st d j vc h

theorem cacheInv_applyOp (rt : JsRuntime) (secret : JSString) (st : DOState)
    (op : DOOp) (h : CacheInv rt st) : CacheInv rt (applyOp rt secret st op) := by
  cases op with
  | agentMsg att msg vc =>
    show CacheInv rt (webSocketMessageAgent rt secret st att msg vc).st
    cases ha : att.getD false
    · by_cases ht : wireText rt msg = secret
      · rw [wsAgent_unauth_ok rt secret st att msg vc ha ht]
        exact h
      · rw [wsAgent_unauth_bad rt secret st att msg vc ha ht]
        exact h
    · rw [wsAgent_authed rt secret st att msg vc ha]
      exact cacheInv_handleAgentData rt st msg vc h
  | viewerMsg =>
    show CacheInv rt (getViewerPayload rt st).2
    exact cacheInv_getViewerPayload rt st h
  | deleteHost name =>
    show CacheInv rt (rpcDeleteHost st name).st
    unfold rpcDeleteHost
    by_cases hh : ¬ mapHas st.monitorData name = true
    · rw [if_pos hh]
      exact h
    · rw [if_neg hh]
      exact cacheInv_none rt _ rfl
  | alarmTick e tok cid now =>
    show CacheInv rt (alarmStep rt e tok cid now st).1
    intro p hp
    unfold alarmStep at hp
    simp only at hp
    exact h p hp

/-- C8: two consecutive `getViewerPayload` reads with no intervening
mutation return the same payload and state (the second is the memoized
value); under the cache invariant every read equals the serialization of
the current natural-sorted snapshot list; the invariant is preserved by
every serialized operation; and every accepted put and every successful
delete leaves the cache either nulled (no viewers for a put, always for a
delete) or freshly rebuilt, so the next read reflects the updated store. -/
theorem broadcast_cache_memoization (rt : JsRuntime) (secret : JSString) :
    (∀ st : DOState, getViewerPayload rt (getViewerPayload rt st).2
        = ((getViewerPayload rt st).1, (getViewerPayload rt st).2)) ∧
    (∀ st : DOState, CacheInv rt st →
      (getViewerPayload rt st).1
        = serializeMonitors (getAllMonitorData rt st.monitorData)) ∧
    (∀ st op, CacheInv rt st → CacheInv rt (applyOp rt secret st op)) ∧
    (∀ st msg vc j d, decodeAgentMessage rt msg = some j →
      rt.parseMon j = some d → d.Host.Name ≠ [] →
      (mapHas st.monitorData d.Host.Name = true ∨
        st.monitorData.length < MONITOR_DATA_MAX_ENTRIES) →
      ((vc = 0 → (handleAgentData rt st msg vc).st.cachedViewerPayload = none) ∧
       (getViewerPayload rt (handleAgentData rt st msg vc).st).1
        = serializeMonitors
            (getAllMonitorData rt (mapSet st.monitorData d.Host.Name j)))) ∧
    (∀ st name, mapHas st.monitorData name = true →
      (rpcDeleteHost st name).st.cachedViewerPayload = none ∧
      (getViewerPayload rt (rpcDeleteHost st name).st).1
        = serializeMonitors
            (getAllMonitorData rt (mapDelete st.monitorData name))) := by
  have hread : ∀ st : DOState, CacheInv rt st →
      (getViewerPayload rt st).1
        = serializeMonitors (getAllMonitorData rt st.monitorData) := by
    intro st h
    unfold getViewerPayload
    cases hc : st.cachedViewerPayload with
    | some p => exact h p hc
    | none => rfl
  refine ⟨?_, hread, cacheInv_applyOp rt secret, ?_, ?_⟩
  · intro st
    unfold getViewerPayload
    cases hc : st.cachedViewerPayload with
    | some p => simp [hc]
    | none => simp [hc]
  · intro st msg vc j d hdec hp h1 hcap
    rw [handleAgentData_parsed rt st msg vc j d hdec hp]
    rw [agentPut_accept rt st d j vc h1 hcap]
    constructor
    · intro hv
      subst hv
      rfl
    · have hinv : CacheInv rt (broadcastToViewers rt
          ⟨mapSet st.monitorData d.Host.Name j, st.offlineMap, none⟩ vc).1 :=
        cacheInv_broadcast rt _ vc (cacheInv_none rt _ rfl)
      have := hread _ hinv
      rw [this, broadcastToViewers_monitorData]
  · intro st name hh
    have hres : rpcDeleteHost st name
        = DeleteResult.mk
            (DOState.mk (mapDelete st.monitorData name)
              (mapDelete st.offlineMap name) none) 200 true [monitorKey name] := by
      unfold rpcDeleteHost
      rw [if_neg (not_not_intro hh)]
    rw [hres]
    refine ⟨rfl, ?_⟩
    have hinv : CacheInv rt (DOState.mk (mapDelete st.monitorData name)
        (mapDelete st.offlineMap name) none) := cacheInv_none rt _ rfl
    exact hread _ hinv

/-- Witness for C8: concrete double read on `stH`, fresh read after an
accepted put and after a successful delete, and invariant preservation at a
concrete operation. -/
theorem broadcast_cache_witness :
    getViewerPayload rtW (getViewerPayload rtW stH).2
      = ((getViewerPayload rtW stH).1, (getViewerPayload rtW stH).2) ∧
    (getViewerPayload rtW stH).1
      = serializeMonitors (getAllMonitorData rtW stH.monitorData) ∧
    CacheInv rtW (applyOp rtW [] stH DOOp.viewerMsg) ∧
    (getViewerPayload rtW (handleAgentData rtW stH (WireMsg.binary [72]) 0).st).1
      = serializeMonitors (getAllMonitorData rtW (mapSet stH.monitorData [72] [72])) ∧
    (rpcDeleteHost stH [72]).st.cachedViewerPayload = none := by
  obtain ⟨e1, e2, e3, e4, e5⟩ := broadcast_cache_memoization rtW []
  have hinvH : CacheInv rtW stH := cacheInv_none rtW stH rfl
  refine ⟨e1 stH, e2 stH hinvH, e3 stH DOOp.viewerMsg hinvH, ?_, ?_⟩
  · exact (e4 stH (WireMsg.binary [72]) 0 [72] (mkMon [72] 0) rfl rfl
      (by decide) (Or.inl (by decide))).2
  · exact (e5 stH [72] (by decide)).1

/-! ## C10: comparator algebra -/

theorem cmpCodes_self : ∀ a : List Nat, cmpCodes a a = 0 := by
  intro a
  induction a with
  | nil => rfl
  | cons c cs ih =>
    unfold cmpCodes
    simp [ih]

theorem cmpCodes_antisymm : ∀ a b : List Nat, cmpCodes a b = -cmpCodes b a := by
  intro a
  induction a with
  | nil =>
    intro b
    cases b <;> rfl
  | cons c cs ih =>
    intro b
    cases b with
    | nil => rfl
    | cons d ds =>
      unfold cmpCodes
      rcases Nat.lt_trichotomy c d with h | h | h
      · simp [h, Nat.not_lt_of_lt h]
      · subst h
        simp [ih ds]
      · simp [h, Nat.not_lt_of_lt h]

theorem cmpTok_antisymm : ∀ a b : Tok, cmpTok a b = -cmpTok b a := by
  intro a b
  cases a with
  | num x =>
    cases b with
    | num y =>
      simp only [cmpTok]
      rcases Nat.lt_trichotomy x y with h | h | h
      · simp [h, Nat.not_lt_of_lt h]
      · subst h
        simp
      · simp [h, Nat.not_lt_of_lt h]
    | str y =>
      show (-1 : Int) = -(1 : Int)
      omega
  | str x =>
    cases b with
    | num y =>
      show (1 : Int) = -(-1 : Int)
      omega
    | str y => exact cmpCodes_antisymm x y

theorem natCmpToks_antisymm : ∀ a b : List Tok, natCmpToks a b = -natCmpToks b a := by
  intro a
  induction a with
  | nil =>
    intro b
    cases b with
    | nil => rfl
    | cons d ds =>
      show -(((d :: ds).length : Int)) = -((ds.length : Int) + 1)
      simp
  | cons c cs ih =>
    intro b
    cases b with
    | nil =>
      show ((cs.length : Int) + 1) = -(-(((c :: cs).length : Int)))
      simp
    | cons d ds =>
      show (let x := cmpTok c d; if x = 0 then natCmpToks cs ds else x)
          = -(let y := cmpTok d c; if y = 0 then natCmpToks ds cs else y)
      simp only
      rw [cmpTok_antisymm c d]
      by_cases h : cmpTok d c = 0
      · rw [h]
        simp [ih ds]
      · rw [if_neg (fun hh : -cmpTok d c = 0 => h (by omega)), if_neg h]

theorem naturalCompare_antisymm (a b : JSString) :
    naturalCompare a b = -naturalCompare b a :=
  natCmpToks_antisymm (tokenize a) (tokenize b)

theorem compareStrings_antisymm (a b : JSString) :
    compareStrings a b = -compareStrings b a := by
  cases h1 : lettersDigitsSplit (stripWs a) with
  | none =>
    cases h2 : lettersDigitsSplit (stripWs b) with
    | none =>
      simp only [compareStrings, h1, h2]
      exact naturalCompare_antisymm _ _
    | some q =>
      simp only [compareStrings, h1, h2]
      exact naturalCompare_antisymm _ _
  | some p =>
    cases h2 : lettersDigitsSplit (stripWs b) with
    | none =>
      simp only [compareStrings, h1, h2]
      exact naturalCompare_antisymm _ _
    | some q =>
      obtain ⟨l1, d1⟩ := p
      obtain ⟨l2, d2⟩ := q
      simp only [compareStrings, h1, h2]
      rw [cmpCodes_antisymm l1 l2]
      by_cases hc : cmpCodes l2 l1 = 0
      · rw [hc]
        simp only [neg_zero, if_pos rfl]
        rcases Nat.lt_trichotomy (digitsVal d1) (digitsVal d2) with h | h | h
        · simp [h, Nat.not_lt_of_lt h]
        · rw [h]
          simp
        · simp [h, Nat.not_lt_of_lt h]
      · rw [if_neg (fun hh : -cmpCodes l2 l1 = 0 => hc (by omega)), if_neg hc]

theorem compareStrings_self (a : JSString) : compareStrings a a = 0 := by
  have h := compareStrings_antisymm a a
  omega

theorem stripWs_idem (s : JSString) : stripWs (stripWs s) = stripWs s := by
  unfold stripWs
  induction s with
  | nil => rfl
  | cons c cs ih =>
    by_cases h : isWsCode c
    · simp [h, ih]
    · simp [h, ih]

theorem compareStrings_strip (a b : JSString) :
    compareStrings a b = compareStrings (stripWs a) (stripWs b) := by
  unfold compareStrings
  rw [stripWs_idem, stripWs_idem]

/-- C10: `compareStrings` is reflexively zero; it is exactly antisymmetric
(`compareStrings a b = -compareStrings b a`, hence its sign is the negation
of the swapped sign); and two strings that agree after deleting all
whitespace compare equal. -/
theorem comparator_reflexive_antisymmetric (a b : JSString) :
    compareStrings a a = 0 ∧
    compareStrings a b = -compareStrings b a ∧
    (stripWs a = stripWs b → compareStrings a b = 0) := by
  refine ⟨compareStrings_self a, compareStrings_antisymm a b, ?_⟩
  intro h
  rw [compareStrings_strip, h]
  exact compareStrings_self _

/-- Witness for C10 at `"HK 1"` and `"HK1"`, which differ only in
whitespace. -/
theorem comparator_witness :
    stripWs (strCodes "HK 1") = stripWs (strCodes "HK1") ∧
    compareStrings (strCodes "HK 1") (strCodes "HK1") = 0 ∧
    compareStrings (strCodes "HK 1") (strCodes "HK 1") = 0 ∧
    compareStrings (strCodes "HK 1") (strCodes "HK1")
      = -compareStrings (strCodes "HK1") (strCodes "HK 1") := by
  obtain ⟨w1, w2, w3⟩ :=
    comparator_reflexive_antisymmetric (strCodes "HK 1") (strCodes "HK1")
  exact ⟨by decide, w3 (by decide), w1, w2⟩

/-! ## C3: the natural sort order of `getAllMonitorData`

`compareStrings ≤ 0` is shown to be a total, transitive relation, so
`getAllMonitorData` returns a `Sorted` permutation of the parsed snapshots;
the `HK1 < HK2 < HK10 < US1` instance is decided over all insertion
orders. -/

theorem cmpCodes_cases (a b : List Nat) :
    cmpCodes a b = -1 ∨ cmpCodes a b = 0 ∨ cmpCodes a b = 1 := by
  induction a generalizing b with
  | nil => cases b <;> simp [cmpCodes]
  | cons c cs ih =>
    cases b with
    | nil => simp [cmpCodes]
    | cons d ds =>
      unfold cmpCodes
      rcases Nat.lt_trichotomy c d with h | h | h
      · simp [h]
      · subst h
        simp [ih ds]
      · simp [h, Nat.not_lt_of_lt h]

theorem cmpCodes_eq_zero_iff (a b : List Nat) : cmpCodes a b = 0 ↔ a = b := by
  induction a generalizing b with
  | nil => cases b <;> simp [cmpCodes]
  | cons c cs ih =>
    cases b with
    | nil => simp [cmpCodes]
    | cons d ds =>
      unfold cmpCodes
      rcases Nat.lt_trichotomy c d with h | h | h
      · simp [h, Nat.ne_of_lt h]
      · subst h
        simp [ih ds]
      · simp [h, Nat.not_lt_of_lt h, (Nat.ne_of_lt h).symm]

theorem cmpCodes_lt_trans (a b c : List Nat) (h1 : cmpCodes a b = -1)
    (h2 : cmpCodes b c = -1) : cmpCodes a c = -1 := by
  induction a generalizing b c with
  | nil =>
    cases c with
    | nil =>
      cases b with
      | nil => cases h2
      | cons d ds => cases h2
    | cons e es => rfl
  | cons x xs ih =>
    cases b with
    | nil => cases h1
    | cons y ys =>
      cases c with
      | nil => cases h2
      | cons z zs =>
        unfold cmpCodes at h1 h2 ⊢
        rcases Nat.lt_trichotomy x y with hxy | hxy | hxy
        · rcases Nat.lt_trichotomy y z with hyz | hyz | hyz
          · rw [if_pos (Nat.lt_trans hxy hyz)]
          · subst hyz
            rw [if_pos hxy]
          · rw [if_neg (Nat.not_lt_of_lt hyz), if_pos hyz] at h2
            cases h2
        · subst hxy
          rw [if_neg (Nat.lt_irrefl x), if_neg (Nat.lt_irrefl x)] at h1
          rcases Nat.lt_trichotomy x z with hxz | hxz | hxz
          · rw [if_pos hxz]
          · subst hxz
            rw [if_neg (Nat.lt_irrefl x), if_neg (Nat.lt_irrefl x)] at h2 ⊢
            exact ih ys zs h1 h2
          · rw [if_neg (Nat.not_lt_of_lt hxz), if_pos hxz] at h2
            cases h2
        · rw [if_neg (Nat.not_lt_of_lt hxy), if_pos hxy] at h1
          cases h1

theorem cmpTok_eq_zero_iff (t u : Tok) : cmpTok t u = 0 ↔ t = u := by
  cases t with
  | num x =>
    cases u with
    | num y =>
      simp only [cmpTok]
      rcases Nat.lt_trichotomy x y with h | h | h
      · simp [h, Nat.ne_of_lt h]
      · subst h
        simp
      · simp [h, Nat.not_lt_of_lt h, (Nat.ne_of_lt h).symm]
    | str y => simp [cmpTok]
  | str x =>
    cases u with
    | num y => simp [cmpTok]
    | str y => simp [cmpTok, cmpCodes_eq_zero_iff]

theorem cmpTok_lt_trans (t u v : Tok) (h1 : cmpTok t u = -1)
    (h2 : cmpTok u v = -1) : cmpTok t v = -1 := by
  cases t with
  | num x =>
    cases v with
    | str _ => rfl
    | num z =>
      cases u with
      | str _ => cases h2
      | num y =>
        simp only [cmpTok] at h1 h2 ⊢
        have hxy : x < y := by
          by_contra hc
          rw [if_neg hc] at h1
          by_cases hyx : y < x
          · rw [if_pos hyx] at h1
            cases h1
          · rw [if_neg hyx] at h1
            cases h1
        have hyz : y < z := by
          by_contra hc
          rw [if_neg hc] at h2
          by_cases hzy : z < y
          · rw [if_pos hzy] at h2
            cases h2
          · rw [if_neg hzy] at h2
            cases h2
        rw [if_pos (Nat.lt_trans hxy hyz)]
  | str x =>
    cases u with
    | num y => cases h1
    | str y =>
      cases v with
      | num z => cases h2
      | str z => exact cmpCodes_lt_trans x y z h1 h2

theorem cmpTok_cases (t u : Tok) :
    cmpTok t u = -1 ∨ cmpTok t u = 0 ∨ cmpTok t u = 1 := by
  cases t with
  | num x =>
    cases u with
    | num y =>
      simp only [cmpTok]
      rcases Nat.lt_trichotomy x y with h | h | h
      · simp [h]
      · subst h
        simp
      · simp [h, Nat.not_lt_of_lt h]
    | str y => simp [cmpTok]
  | str x =>
    cases u with
    | num y => simp [cmpTok]
    | str y => exact cmpCodes_cases x y

theorem natCmpToks_zero_iff : ∀ a b : List Tok, natCmpToks a b = 0 ↔ a = b := by
  intro a
  induction a with
  | nil =>
    intro b
    cases b with
    | nil => simp [natCmpToks]
    | cons d ds =>
      show -(((d :: ds).length : Int)) = 0 ↔ ([] : List Tok) = d :: ds
      simp only [List.length_cons]
      push_cast
      constructor
      · intro h
        omega
      · intro h
        cases h
  | cons c cs ih =>
    intro b
    cases b with
    | nil =>
      show ((cs.length : Int) + 1) = 0 ↔ _
      constructor
      · intro h
        omega
      · intro h
        cases h
    | cons d ds =>
      show (let x := cmpTok c d; if x = 0 then natCmpToks cs ds else x) = 0 ↔ _
      simp only
      by_cases h : cmpTok c d = 0
      · have hcd : c = d := (cmpTok_eq_zero_iff c d).mp h
        subst hcd
        rw [if_pos h, ih ds]
        simp
      · rw [if_neg h]
        constructor
        · intro hh
          exact absurd hh h
        · intro hh
          rw [List.cons.injEq] at hh
          exact absurd ((cmpTok_eq_zero_iff c d).mpr hh.1) h

theorem natCmpToks_lt_trans : ∀ a b c : List Tok,
    natCmpToks a b < 0 → natCmpToks b c < 0 → natCmpToks a c < 0 := by
  intro a
  induction a with
  | nil =>
    intro b c h1 h2
    cases c with
    | cons e es =>
      show -(((e :: es).length : Int)) < 0
      simp only [List.length_cons]
      push_cast
      omega
    | nil =>
      exfalso
      cases b with
      | nil =>
        rw [show natCmpToks [] [] = 0 from rfl] at h2
        exact absurd h2 (by omega)
      | cons d ds =>
        have : natCmpToks (d :: ds) [] = (ds.length : Int) + 1 := rfl
        rw [this] at h2
        omega
  | cons x xs ih =>
    intro b c h1 h2
    cases b with
    | nil =>
      exfalso
      have : natCmpToks (x :: xs) [] = (xs.length : Int) + 1 := rfl
      rw [this] at h1
      omega
    | cons y ys =>
      cases c with
      | nil =>
        exfalso
        have : natCmpToks (y :: ys) [] = (ys.length : Int) + 1 := rfl
        rw [this] at h2
        omega
      | cons z zs =>
        have hu1 : natCmpToks (x :: xs) (y :: ys)
            = if cmpTok x y = 0 then natCmpToks xs ys else cmpTok x y := rfl
        have hu2 : natCmpToks (y :: ys) (z :: zs)
            = if cmpTok y z = 0 then natCmpToks ys zs else cmpTok y z := rfl
        have hu3 : natCmpToks (x :: xs) (z :: zs)
            = if cmpTok x z = 0 then natCmpToks xs zs else cmpTok x z := rfl
        rw [hu1] at h1
        rw [hu2] at h2
        rw [hu3]
        by_cases hxy : cmpTok x y = 0
        · have hxy' : x = y := (cmpTok_eq_zero_iff x y).mp hxy
          subst hxy'
          rw [if_pos hxy] at h1
          by_cases hyz : cmpTok x z = 0
          · have hyz' : x = z := (cmpTok_eq_zero_iff x z).mp hyz
            subst hyz'
            rw [if_pos hyz] at h2
            rw [if_pos hyz]
            exact ih ys zs h1 h2
          · rw [if_neg hyz] at h2
            rw [if_neg hyz]
            exact h2
        · rw [if_neg hxy] at h1
          by_cases hyz : cmpTok y z = 0
          · have hyz' : y = z := (cmpTok_eq_zero_iff y z).mp hyz
            subst hyz'
            rw [if_neg hxy]
            exact h1
          · rw [if_neg hyz] at h2
            have hxy1 : cmpTok x y = -1 := by
              rcases cmpTok_cases x y with h | h | h
              · exact h
              · exact absurd h hxy
              · rw [h] at h1
                exact absurd h1 (by omega)
            have hyz1 : cmpTok y z = -1 := by
              rcases cmpTok_cases y z with h | h | h
              · exact h
              · exact absurd h hyz
              · rw [h] at h2
                exact absurd h2 (by omega)
            have hxz := cmpTok_lt_trans x y z hxy1 hyz1
            rw [if_neg (by rw [hxz]; omega), hxz]
            omega

theorem natCmpToks_le_trans (a b c : List Tok) (h1 : natCmpToks a b ≤ 0)
    (h2 : natCmpToks b c ≤ 0) : natCmpToks a c ≤ 0 := by
  by_cases hz1 : natCmpToks a b = 0
  · rw [(natCmpToks_zero_iff a b).mp hz1]
    exact h2
  · by_cases hz2 : natCmpToks b c = 0
    · rw [← (natCmpToks_zero_iff b c).mp hz2]
      exact h1
    · exact le_of_lt (natCmpToks_lt_trans a b c (lt_of_le_of_ne h1 hz1)
        (lt_of_le_of_ne h2 hz2))

theorem letter_not_digit (c : Nat) (h : isLetterCode c = true) :
    isDigitCode c = false := by
  unfold isLetterCode at h
  unfold isDigitCode
  rw [Bool.or_eq_true, Bool.and_eq_true, Bool.and_eq_true] at h
  simp only [decide_eq_true_eq] at h
  rw [Bool.and_eq_false_iff]
  rcases h with ⟨h1, h2⟩ | ⟨h1, h2⟩
  · right
    simp only [decide_eq_false_iff_not]
    omega
  · right
    simp only [decide_eq_false_iff_not]
    omega

theorem digit_not_letter (c : Nat) (h : isDigitCode c = true) :
    isLetterCode c = false := by
  cases hb : isLetterCode c
  · rfl
  · rw [letter_not_digit c hb] at h
    cases h

theorem takeWhile_all_append (p : Nat → Bool) :
    ∀ (L D : List Nat), L.all p = true →
    (L ++ D).takeWhile p = L ++ D.takeWhile p ∧
    (L ++ D).dropWhile p = D.dropWhile p := by
  intro L
  induction L with
  | nil => intro D _; simp
  | cons c L2 ih =>
    intro D hall
    rw [List.all_cons, Bool.and_eq_true] at hall
    rw [List.cons_append]
    rw [List.takeWhile_cons, List.dropWhile_cons]
    rw [hall.1]
    obtain ⟨ht, hd⟩ := ih D hall.2
    simp only [if_true]
    rw [ht, hd]
    exact ⟨rfl, rfl⟩

theorem takeWhile_none (p : Nat → Bool) (D : List Nat)
    (h : ∀ c ∈ D, p c = false) :
    D.takeWhile p = [] ∧ D.dropWhile p = D := by
  cases D with
  | nil => exact ⟨rfl, rfl⟩
  | cons c cs =>
    rw [List.takeWhile_cons, List.dropWhile_cons]
    rw [h c (List.mem_cons_self c cs)]
    simp

theorem lettersDigitsSplit_spec (s : JSString) (L D : List Nat)
    (h : lettersDigitsSplit s = some (L, D)) :
    s = L ++ D ∧ L ≠ [] ∧ L.all isLetterCode = true ∧ D.all isDigitCode = true := by
  unfold lettersDigitsSplit at h
  by_cases hc : s.takeWhile isLetterCode ≠ [] ∧
      (s.dropWhile isLetterCode).all isDigitCode = true
  · rw [if_pos hc] at h
    have hL : s.takeWhile isLetterCode = L := congrArg Prod.fst (Option.some.inj h)
    have hD : s.dropWhile isLetterCode = D := congrArg Prod.snd (Option.some.inj h)
    refine ⟨?_, hL ▸ hc.1, ?_, hD ▸ hc.2⟩
    · rw [← hL, ← hD, List.takeWhile_append_dropWhile]
    · rw [← hL]
      exact List.all_takeWhile
  · rw [if_neg hc] at h
    cases h

theorem lettersDigitsSplit_of (L D : List Nat) (hL : L ≠ [])
    (hLl : L.all isLetterCode = true) (hD : D.all isDigitCode = true) :
    lettersDigitsSplit (L ++ D) = some (L, D) := by
  have htw := takeWhile_all_append isLetterCode L D hLl
  have hdg := takeWhile_none isLetterCode D (by
    intro c hc
    rw [List.all_eq_true] at hD
    exact digit_not_letter c (hD c hc))
  unfold lettersDigitsSplit
  rw [htw.1, htw.2, hdg.1, hdg.2, List.append_nil]
  rw [if_pos ⟨hL, hD⟩]

theorem tokenizeRuns_all : ∀ s : List Nat, ∀ p ∈ tokenizeRuns s,
    p.2 ≠ [] ∧ p.2.all (fun x => isDigitCode x == p.1) = true := by
  intro s
  induction s with
  | nil => intro p hp; cases hp
  | cons c cs ih =>
    intro p hp
    unfold tokenizeRuns at hp
    cases hr : tokenizeRuns cs with
    | nil =>
      simp only [hr, List.mem_singleton] at hp
      subst hp
      refine ⟨by simp, ?_⟩
      simp
    | cons q ts =>
      obtain ⟨d, run⟩ := q
      simp only [hr] at hp
      by_cases hd : isDigitCode c == d
      · rw [if_pos hd] at hp
        rcases List.mem_cons.mp hp with hp | hp
        · subst hp
          obtain ⟨hne, hall⟩ := ih (d, run) (by rw [hr]; exact List.mem_cons_self _ _)
          refine ⟨by simp, ?_⟩
          rw [List.all_cons, Bool.and_eq_true]
          exact ⟨hd, hall⟩
        · exact ih p (by rw [hr]; exact List.mem_cons_of_mem _ hp)
      · rw [if_neg hd] at hp
        rcases List.mem_cons.mp hp with hp | hp
        · subst hp
          refine ⟨by simp, ?_⟩
          simp
        · exact ih p (by rw [hr]; exact hp)

theorem tokenizeRuns_cons (c : Nat) (cs : List Nat) :
    tokenizeRuns (c :: cs) =
      match tokenizeRuns cs with
      | [] => [(isDigitCode c, [c])]
      | (d, run) :: ts =>
        if isDigitCode c == d then (d, c :: run) :: ts
        else (isDigitCode c, [c]) :: (d, run) :: ts := rfl

theorem tokenizeRuns_flatten : ∀ s : List Nat,
    ((tokenizeRuns s).map Prod.snd).flatten = s := by
  intro s
  induction s with
  | nil => rfl
  | cons c cs ih =>
    cases hr : tokenizeRuns cs with
    | nil =>
      rw [hr] at ih
      simp only [List.map_nil, List.flatten_nil] at ih
      simp only [tokenizeRuns_cons, hr]
      simp [← ih]
    | cons q ts =>
      obtain ⟨d, run⟩ := q
      rw [hr] at ih
      simp only [tokenizeRuns_cons, hr]
      by_cases hd : (isDigitCode c == d) = true
      · rw [if_pos hd]
        simp only [List.map_cons, List.flatten_cons] at ih ⊢
        rw [List.cons_append, ih]
      · rw [if_neg hd]
        simp only [List.map_cons, List.flatten_cons] at ih ⊢
        rw [List.singleton_append, ih]

theorem run_of_all (b : Bool) : ∀ l : List Nat, l ≠ [] →
    l.all (fun x => isDigitCode x == b) = true → tokenizeRuns l = [(b, l)] := by
  intro l
  induction l with
  | nil => intro h; exact absurd rfl h
  | cons c cs ih =>
    intro _ hall
    rw [List.all_cons, Bool.and_eq_true] at hall
    have hcb : isDigitCode c = b := by
      have := hall.1
      rwa [beq_iff_eq] at this
    by_cases hcs : cs = []
    · subst hcs
      rw [show tokenizeRuns [c] = [(isDigitCode c, [c])] from rfl, hcb]
    · have hih := ih hcs hall.2
      simp only [tokenizeRuns_cons, hih]
      rw [hcb]
      simp

theorem tokenizeRuns_letters_digits : ∀ (L : List Nat), ∀ (D : List Nat),
    L ≠ [] → L.all isLetterCode = true → D.all isDigitCode = true →
    tokenizeRuns (L ++ D)
      = if D = [] then [(false, L)] else [(false, L), (true, D)] := by
  intro L
  induction L with
  | nil => intro D h; exact absurd rfl h
  | cons c L2 ihL =>
    intro D _ hLl hD
    rw [List.all_cons, Bool.and_eq_true] at hLl
    have hcd : isDigitCode c = false := letter_not_digit c hLl.1
    by_cases hL2 : L2 = []
    · subst hL2
      by_cases hDe : D = []
      · subst hDe
        rw [if_pos rfl]
        rw [List.append_nil]
        rw [show tokenizeRuns [c] = [(isDigitCode c, [c])] from rfl, hcd]
      · have hrD : tokenizeRuns D = [(true, D)] := by
          refine run_of_all true D hDe ?_
          rw [List.all_eq_true] at hD ⊢
          intro x hx
          rw [beq_iff_eq]
          exact hD x hx
        rw [if_neg hDe]
        rw [show ([c] ++ D : List Nat) = c :: D from rfl]
        simp only [tokenizeRuns_cons, hrD]
        rw [hcd]
        simp
    · have hih := ihL D hL2 hLl.2 hD
      rw [List.cons_append]
      by_cases hDe : D = []
      · rw [if_pos hDe] at hih
        rw [if_pos hDe]
        simp only [tokenizeRuns_cons, hih]
        rw [hcd]
        simp
      · rw [if_neg hDe] at hih
        rw [if_neg hDe]
        simp only [tokenizeRuns_cons, hih]
        rw [hcd]
        simp

theorem tokenize_letters_digits (L D : List Nat) (hL : L ≠ [])
    (hLl : L.all isLetterCode = true) (hD : D.all isDigitCode = true) :
    tokenize (L ++ D)
      = if D = [] then [Tok.str L]
        else [Tok.str L, Tok.num (digitsVal D)] := by
  unfold tokenize
  rw [tokenizeRuns_letters_digits L D hL hLl hD]
  by_cases hDe : D = []
  · rw [if_pos hDe, if_pos hDe]
    rfl
  · rw [if_neg hDe, if_neg hDe]
    rfl

theorem tokenize_eq_single_str (s : List Nat) (L : List Nat)
    (h : tokenize s = [Tok.str L]) : s = L := by
  have hflat := tokenizeRuns_flatten s
  unfold tokenize at h
  cases hr : tokenizeRuns s with
  | nil =>
    rw [hr] at h
    cases h
  | cons p ts =>
    obtain ⟨pb, prun⟩ := p
    rw [hr] at h
    cases ts with
    | cons q ts2 =>
      rw [List.map_cons, List.map_cons] at h
      simp at h
    | nil =>
      rw [List.map_cons, List.map_nil, List.cons.injEq] at h
      have h1 := h.1
      cases pb with
      | true =>
        rw [if_pos rfl] at h1
        cases h1
      | false =>
        simp only [Bool.false_eq_true, if_false] at h1
        rw [Tok.str.injEq] at h1
        rw [hr] at hflat
        simp only [List.map_cons, List.map_nil, List.flatten_cons,
          List.flatten_nil, List.append_nil] at hflat
        rw [← hflat, h1]

theorem tokenize_eq_str_num (s : List Nat) (L : List Nat) (n : Nat)
    (h : tokenize s = [Tok.str L, Tok.num n]) :
    ∃ D, s = L ++ D ∧ D ≠ [] ∧ D.all isDigitCode = true := by
  have hflat := tokenizeRuns_flatten s
  unfold tokenize at h
  cases hr : tokenizeRuns s with
  | nil =>
    rw [hr] at h
    cases h
  | cons p ts =>
    obtain ⟨pb, prun⟩ := p
    rw [hr] at h
    cases ts with
    | nil =>
      rw [List.map_cons, List.map_nil] at h
      simp at h
    | cons q ts2 =>
      obtain ⟨qb, qrun⟩ := q
      cases ts2 with
      | cons r ts3 =>
        rw [List.map_cons, List.map_cons, List.map_cons] at h
        simp at h
      | nil =>
        rw [List.map_cons, List.map_cons, List.map_nil] at h
        rw [List.cons.injEq] at h
        rw [List.cons.injEq] at h
        obtain ⟨h1, h2, _⟩ := h
        cases pb with
        | true =>
          rw [if_pos rfl] at h1
          cases h1
        | false =>
          simp only [Bool.false_eq_true, if_false] at h1
          rw [Tok.str.injEq] at h1
          cases qb with
          | false =>
            simp only [Bool.false_eq_true, if_false] at h2
            cases h2
          | true =>
            have hqmem : ((true, qrun) : Bool × List Nat) ∈ tokenizeRuns s := by
              rw [hr]
              exact List.mem_cons_of_mem _ (List.mem_cons_self _ _)
            obtain ⟨hqne, hqall⟩ := tokenizeRuns_all s (true, qrun) hqmem
            refine ⟨qrun, ?_, hqne, ?_⟩
            · rw [hr] at hflat
              simp only [List.map_cons, List.map_nil, List.flatten_cons,
                List.flatten_nil, List.append_nil] at hflat
              rw [← hflat, h1]
            · rw [List.all_eq_true] at hqall ⊢
              intro x hx
              have := hqall x hx
              rwa [beq_iff_eq] at this

theorem cmpTok_num0_le (w : Tok) : cmpTok (Tok.num 0) w ≤ 0 := by
  cases w with
  | num k =>
    simp only [cmpTok]
    by_cases h : 0 < k
    · rw [if_pos h]
      omega
    · rw [if_neg h, if_neg (by omega)]
  | str y =>
    show (-1 : Int) ≤ 0
    omega

theorem natCmp_str_cons (x y : List Nat) (r1 r2 : List Tok) :
    natCmpToks (Tok.str x :: r1) (Tok.str y :: r2)
      = if cmpCodes x y = 0 then natCmpToks r1 r2 else cmpCodes x y := rfl

theorem natCmp_singleton_cons (x u : Tok) (t : List Tok) :
    natCmpToks [x] (u :: t)
      = if cmpTok x u = 0 then -(t.length : Int) else cmpTok x u := rfl

theorem natCmp_pair_cons (x y u : Tok) (t : List Tok) :
    natCmpToks [x, y] (u :: t)
      = if cmpTok x u = 0 then natCmpToks [y] t else cmpTok x u := rfl

theorem gap_G1 (L : List Nat) (t : List Tok) (hne : t ≠ [Tok.str L])
    (h : natCmpToks [Tok.str L] t ≤ 0) :
    natCmpToks [Tok.str L, Tok.num 0] t ≤ 0 := by
  cases t with
  | nil =>
    rw [show natCmpToks [Tok.str L] [] = 1 from rfl] at h
    omega
  | cons u t2 =>
    rw [natCmp_singleton_cons] at h
    rw [natCmp_pair_cons]
    by_cases hc : cmpTok (Tok.str L) u = 0
    · rw [if_pos hc] at h ⊢
      have hu : Tok.str L = u := (cmpTok_eq_zero_iff _ _).mp hc
      cases t2 with
      | nil => exact absurd (by rw [← hu]) hne
      | cons w t3 =>
        rw [natCmp_singleton_cons]
        by_cases hw : cmpTok (Tok.num 0) w = 0
        · rw [if_pos hw]
          have : (0 : Int) ≤ t3.length := by positivity
          omega
        · rw [if_neg hw]
          exact cmpTok_num0_le w
    · rw [if_neg hc] at h ⊢
      exact h

theorem gap_G2 (L : List Nat) (t : List Tok)
    (h : natCmpToks [Tok.str L, Tok.num 0] t ≤ 0) :
    natCmpToks [Tok.str L] t ≤ 0 := by
  cases t with
  | nil =>
    rw [show natCmpToks [Tok.str L, Tok.num 0] [] = 2 from rfl] at h
    omega
  | cons u t2 =>
    rw [natCmp_pair_cons] at h
    rw [natCmp_singleton_cons]
    by_cases hc : cmpTok (Tok.str L) u = 0
    · rw [if_pos hc]
      have : (0 : Int) ≤ t2.length := by positivity
      omega
    · rw [if_neg hc] at h ⊢
      exact h

theorem gap_G3 (L : List Nat) (t : List Tok)
    (h : 0 ≤ natCmpToks [Tok.str L] t) :
    0 ≤ natCmpToks [Tok.str L, Tok.num 0] t := by
  cases t with
  | nil =>
    rw [show natCmpToks [Tok.str L, Tok.num 0] [] = 2 from rfl]
    omega
  | cons u t2 =>
    rw [natCmp_singleton_cons] at h
    rw [natCmp_pair_cons]
    by_cases hc : cmpTok (Tok.str L) u = 0
    · rw [if_pos hc] at h
      have ht2 : t2 = [] := by
        have : (t2.length : Int) ≤ 0 := by omega
        cases t2 with
        | nil => rfl
        | cons w t3 =>
          simp only [List.length_cons] at this
          push_cast at this
          omega
      subst ht2
      rw [if_pos hc]
      rw [show natCmpToks [Tok.num 0] [] = 1 from rfl]
      omega
    · rw [if_neg hc] at h
      rw [if_neg hc]
      exact h

theorem gap_G4 (L : List Nat) (t : List Tok)
    (hne : t ≠ [Tok.str L, Tok.num 0])
    (h : 0 ≤ natCmpToks [Tok.str L, Tok.num 0] t) :
    0 ≤ natCmpToks [Tok.str L] t := by
  cases t with
  | nil =>
    rw [show natCmpToks [Tok.str L] [] = 1 from rfl]
    omega
  | cons u t2 =>
    rw [natCmp_pair_cons] at h
    rw [natCmp_singleton_cons]
    by_cases hc : cmpTok (Tok.str L) u = 0
    · rw [if_pos hc] at h
      rw [if_pos hc]
      have hu : Tok.str L = u := (cmpTok_eq_zero_iff _ _).mp hc
      cases t2 with
      | nil =>
        rw [show ∀ x : List Tok, x = [] → ((x.length : Int)) = 0 from
          fun x hx => by rw [hx]; rfl]
        · omega
        · rfl
      | cons w t3 =>
        rw [natCmp_singleton_cons] at h
        by_cases hw : cmpTok (Tok.num 0) w = 0
        · rw [if_pos hw] at h
          have hweq : Tok.num 0 = w := (cmpTok_eq_zero_iff _ _).mp hw
          have ht3 : t3 = [] := by
            cases t3 with
            | nil => rfl
            | cons r t4 =>
              simp only [List.length_cons] at h
              push_cast at h
              omega
          subst ht3
          exact absurd (by rw [← hu, ← hweq]) hne
        · rw [if_neg hw] at h
          have := cmpTok_num0_le w
          omega
    · rw [if_neg hc] at h
      rw [if_neg hc]
      exact h

/-- The direct letters-then-digits comparison branch of `compareStrings`,
taken when both stripped strings match `letters⁺digits*`. -/
def directCmp (l1 d1 l2 d2 : List Nat) : Int :=
  if cmpCodes l1 l2 = 0 then
    if digitsVal d1 < digitsVal d2 then -1
    else if digitsVal d2 < digitsVal d1 then 1
    else 0
  else cmpCodes l1 l2

theorem compareStrings_eq_direct (a b : JSString) (l1 d1 l2 d2 : List Nat)
    (h1 : lettersDigitsSplit (stripWs a) = some (l1, d1))
    (h2 : lettersDigitsSplit (stripWs b) = some (l2, d2)) :
    compareStrings a b = directCmp l1 d1 l2 d2 := by
  simp only [compareStrings, h1, h2, directCmp]

theorem compareStrings_eq_natural (a b : JSString)
    (h : lettersDigitsSplit (stripWs a) = none ∨
         lettersDigitsSplit (stripWs b) = none) :
    compareStrings a b = naturalCompare (stripWs a) (stripWs b) := by
  cases hA : lettersDigitsSplit (stripWs a) with
  | none =>
    cases hB : lettersDigitsSplit (stripWs b) with
    | none => simp only [compareStrings, hA, hB]
    | some q => simp only [compareStrings, hA, hB]
  | some p =>
    cases hB : lettersDigitsSplit (stripWs b) with
    | none => simp only [compareStrings, hA, hB]
    | some q =>
      rcases h with h | h
      · rw [hA] at h
        exact absurd h (by simp)
      · rw [hB] at h
        exact absurd h (by simp)

theorem directCmp_le_iff (l1 d1 l2 d2 : List Nat) :
    directCmp l1 d1 l2 d2 ≤ 0 ↔
      (cmpCodes l1 l2 = -1 ∨ (l1 = l2 ∧ digitsVal d1 ≤ digitsVal d2)) := by
  unfold directCmp
  by_cases hc : cmpCodes l1 l2 = 0
  · have hl : l1 = l2 := (cmpCodes_eq_zero_iff l1 l2).mp hc
    rw [if_pos hc]
    constructor
    · intro h
      right
      refine ⟨hl, ?_⟩
      by_contra hn
      push_neg at hn
      rw [if_neg (Nat.not_lt_of_lt hn), if_pos hn] at h
      omega
    · intro h
      rcases h with h | ⟨_, hle⟩
      · rw [hc] at h
        omega
      · by_cases hlt : digitsVal d1 < digitsVal d2
        · rw [if_pos hlt]
          omega
        · rw [if_neg hlt, if_neg (by omega)]
  · rw [if_neg hc]
    rcases cmpCodes_cases l1 l2 with h | h | h
    · rw [h]
      constructor
      · intro _
        exact Or.inl rfl
      · intro _
        omega
    · exact absurd h hc
    · rw [h]
      constructor
      · intro hh
        omega
      · intro hh
        rcases hh with hh | ⟨hl, _⟩
        · omega
        · exact absurd ((cmpCodes_eq_zero_iff l1 l2).mpr hl) hc

theorem directCmp_pos_iff (l1 d1 l2 d2 : List Nat) :
    0 < directCmp l1 d1 l2 d2 ↔
      (cmpCodes l1 l2 = 1 ∨ (l1 = l2 ∧ digitsVal d2 < digitsVal d1)) := by
  unfold directCmp
  by_cases hc : cmpCodes l1 l2 = 0
  · have hl : l1 = l2 := (cmpCodes_eq_zero_iff l1 l2).mp hc
    rw [if_pos hc]
    constructor
    · intro h
      right
      refine ⟨hl, ?_⟩
      by_contra hn
      push_neg at hn
      by_cases hlt : digitsVal d1 < digitsVal d2
      · rw [if_pos hlt] at h
        omega
      · rw [if_neg hlt, if_neg (by omega)] at h
        omega
    · intro h
      rcases h with h | ⟨_, hlt⟩
      · rw [hc] at h
        omega
      · rw [if_neg (Nat.not_lt_of_lt hlt), if_pos hlt]
        omega
  · rw [if_neg hc]
    rcases cmpCodes_cases l1 l2 with h | h | h
    · rw [h]
      constructor
      · intro hh
        omega
      · intro hh
        rcases hh with hh | ⟨hl, _⟩
        · omega
        · exact absurd ((cmpCodes_eq_zero_iff l1 l2).mpr hl) hc
    · exact absurd h hc
    · rw [h]
      constructor
      · intro _
        exact Or.inl rfl
      · intro _
        omega

theorem direct_strict_natural (l1 d1 l2 d2 : List Nat)
    (h1L : l1 ≠ []) (h1l : l1.all isLetterCode = true)
    (h1D : d1.all isDigitCode = true)
    (h2L : l2 ≠ []) (h2l : l2.all isLetterCode = true)
    (h2D : d2.all isDigitCode = true)
    (hstrict : cmpCodes l1 l2 = -1 ∨ (l1 = l2 ∧ digitsVal d1 < digitsVal d2)) :
    naturalCompare (l1 ++ d1) (l2 ++ d2) < 0 := by
  unfold naturalCompare
  rw [tokenize_letters_digits l1 d1 h1L h1l h1D,
      tokenize_letters_digits l2 d2 h2L h2l h2D]
  rcases hstrict with hcc | ⟨hl, hlt⟩
  · by_cases hd1 : d1 = [] <;> by_cases hd2 : d2 = []
    · rw [if_pos hd1, if_pos hd2, natCmp_str_cons,
        if_neg (show ¬cmpCodes l1 l2 = 0 by rw [hcc]; decide), hcc]
      omega
    · rw [if_pos hd1, if_neg hd2, natCmp_str_cons,
        if_neg (show ¬cmpCodes l1 l2 = 0 by rw [hcc]; decide), hcc]
      omega
    · rw [if_neg hd1, if_pos hd2, natCmp_str_cons,
        if_neg (show ¬cmpCodes l1 l2 = 0 by rw [hcc]; decide), hcc]
      omega
    · rw [if_neg hd1, if_neg hd2, natCmp_str_cons,
        if_neg (show ¬cmpCodes l1 l2 = 0 by rw [hcc]; decide), hcc]
      omega
  · subst hl
    have hd2 : d2 ≠ [] := by
      intro he
      rw [he, show digitsVal ([] : List Nat) = 0 from rfl] at hlt
      omega
    rw [if_neg hd2]
    by_cases hd1 : d1 = []
    · rw [if_pos hd1, natCmp_str_cons, if_pos ((cmpCodes_eq_zero_iff l1 l1).mpr rfl)]
      rw [show natCmpToks ([] : List Tok) [Tok.num (digitsVal d2)] = -1 from rfl]
      omega
    · rw [if_neg hd1, natCmp_str_cons, if_pos ((cmpCodes_eq_zero_iff l1 l1).mpr rfl),
        natCmp_singleton_cons]
      have hct : cmpTok (Tok.num (digitsVal d1)) (Tok.num (digitsVal d2)) = -1 := by
        simp only [cmpTok, if_pos hlt]
      rw [if_neg (show ¬cmpTok (Tok.num (digitsVal d1)) (Tok.num (digitsVal d2)) = 0
            by rw [hct]; decide), hct]
      omega

theorem natCmpToks_lt_of_lt_of_le (a b c : List Tok)
    (h1 : natCmpToks a b < 0) (h2 : natCmpToks b c ≤ 0) : natCmpToks a c < 0 := by
  by_cases hz : natCmpToks b c = 0
  · rw [← (natCmpToks_zero_iff b c).mp hz]
    exact h1
  · exact natCmpToks_lt_trans a b c h1 (lt_of_le_of_ne h2 hz)

theorem natCmpToks_lt_of_le_of_lt (a b c : List Tok)
    (h1 : natCmpToks a b ≤ 0) (h2 : natCmpToks b c < 0) : natCmpToks a c < 0 := by
  by_cases hz : natCmpToks a b = 0
  · rw [(natCmpToks_zero_iff a b).mp hz]
    exact h2
  · exact natCmpToks_lt_trans a b c (lt_of_le_of_ne h1 hz) h2

theorem no_match_ne_single (s L : List Nat) (hnone : lettersDigitsSplit s = none)
    (hLne : L ≠ []) (hLl : L.all isLetterCode = true) :
    tokenize s ≠ [Tok.str L] := by
  intro h
  have hs := tokenize_eq_single_str s L h
  rw [hs] at hnone
  have hof := lettersDigitsSplit_of L [] hLne hLl rfl
  rw [List.append_nil] at hof
  rw [hof] at hnone
  exact absurd hnone (by simp)

theorem no_match_ne_pair (s L : List Nat) (n : Nat)
    (hnone : lettersDigitsSplit s = none)
    (hLne : L ≠ []) (hLl : L.all isLetterCode = true) :
    tokenize s ≠ [Tok.str L, Tok.num n] := by
  intro h
  obtain ⟨D, hs, hDne, hDd⟩ := tokenize_eq_str_num s L n h
  rw [hs, lettersDigitsSplit_of L D hLne hLl hDd] at hnone
  exact absurd hnone (by simp)

theorem compareStrings_le_trans (a b c : JSString)
    (h1 : compareStrings a b ≤ 0) (h2 : compareStrings b c ≤ 0) :
    compareStrings a c ≤ 0 := by
  cases hs1 : lettersDigitsSplit (stripWs a) with
  | some p1 =>
    obtain ⟨l1, d1⟩ := p1
    cases hs2 : lettersDigitsSplit (stripWs b) with
    | some p2 =>
      obtain ⟨l2, d2⟩ := p2
      cases hs3 : lettersDigitsSplit (stripWs c) with
      | some p3 =>
        obtain ⟨l3, d3⟩ := p3
        rw [compareStrings_eq_direct a b l1 d1 l2 d2 hs1 hs2, directCmp_le_iff] at h1
        rw [compareStrings_eq_direct b c l2 d2 l3 d3 hs2 hs3, directCmp_le_iff] at h2
        rw [compareStrings_eq_direct a c l1 d1 l3 d3 hs1 hs3, directCmp_le_iff]
        rcases h1 with hcc1 | ⟨hl1, hn1⟩
        · rcases h2 with hcc2 | ⟨hl2, hn2⟩
          · exact Or.inl (cmpCodes_lt_trans l1 l2 l3 hcc1 hcc2)
          · exact Or.inl (by rw [← hl2]; exact hcc1)
        · rcases h2 with hcc2 | ⟨hl2, hn2⟩
          · exact Or.inl (by rw [hl1]; exact hcc2)
          · exact Or.inr ⟨hl1.trans hl2, le_trans hn1 hn2⟩
      | none =>
        obtain ⟨haeq, haL, hal, haD⟩ := lettersDigitsSplit_spec _ _ _ hs1
        obtain ⟨hbeq, hbL, hbl, hbD⟩ := lettersDigitsSplit_spec _ _ _ hs2
        rw [compareStrings_eq_direct a b l1 d1 l2 d2 hs1 hs2, directCmp_le_iff] at h1
        rw [compareStrings_eq_natural b c (Or.inr hs3)] at h2
        rw [compareStrings_eq_natural a c (Or.inr hs3)]
        unfold naturalCompare at h2 ⊢
        rcases h1 with hcc | ⟨hl, hn⟩
        · have hstr := direct_strict_natural l1 d1 l2 d2 haL hal haD hbL hbl hbD
            (Or.inl hcc)
          unfold naturalCompare at hstr
          rw [← haeq, ← hbeq] at hstr
          exact le_of_lt (natCmpToks_lt_of_lt_of_le _ _ _ hstr h2)
        · rcases Nat.lt_or_ge (digitsVal d1) (digitsVal d2) with hlt | hge
          · have hstr := direct_strict_natural l1 d1 l2 d2 haL hal haD hbL hbl hbD
              (Or.inr ⟨hl, hlt⟩)
            unfold naturalCompare at hstr
            rw [← haeq, ← hbeq] at hstr
            exact le_of_lt (natCmpToks_lt_of_lt_of_le _ _ _ hstr h2)
          · have heqn : digitsVal d1 = digitsVal d2 := le_antisymm hn hge
            subst hl
            rw [hbeq, tokenize_letters_digits l1 d2 hbL hbl hbD] at h2
            rw [haeq, tokenize_letters_digits l1 d1 haL hal haD]
            by_cases hd1 : d1 = []
            · rw [if_pos hd1]
              by_cases hd2 : d2 = []
              · rw [if_pos hd2] at h2
                exact h2
              · have hz : digitsVal d2 = 0 := by
                  rw [← heqn, hd1]
                  rfl
                rw [if_neg hd2, hz] at h2
                exact gap_G2 l1 _ h2
            · rw [if_neg hd1]
              by_cases hd2 : d2 = []
              · have hz : digitsVal d1 = 0 := by
                  rw [heqn, hd2]
                  rfl
                rw [hz]
                rw [if_pos hd2] at h2
                exact gap_G1 l1 _ (no_match_ne_single (stripWs c) l1 hs3 haL hal) h2
              · rw [heqn]
                rw [if_neg hd2] at h2
                exact h2
    | none =>
      cases hs3 : lettersDigitsSplit (stripWs c) with
      | some p3 =>
        obtain ⟨l3, d3⟩ := p3
        obtain ⟨haeq, haL, hal, haD⟩ := lettersDigitsSplit_spec _ _ _ hs1
        obtain ⟨hceq, hcL, hcl, hcD⟩ := lettersDigitsSplit_spec _ _ _ hs3
        rw [compareStrings_eq_natural a b (Or.inr hs2)] at h1
        rw [compareStrings_eq_natural b c (Or.inl hs2)] at h2
        rw [compareStrings_eq_direct a c l1 d1 l3 d3 hs1 hs3]
        unfold naturalCompare at h1 h2
        by_contra hpos
        push_neg at hpos
        rw [directCmp_pos_iff] at hpos
        have hstrict : cmpCodes l3 l1 = -1 ∨ (l3 = l1 ∧ digitsVal d3 < digitsVal d1) := by
          rcases hpos with h | ⟨hl, hlt⟩
          · left
            have hanti := cmpCodes_antisymm l3 l1
            rw [h] at hanti
            omega
          · exact Or.inr ⟨hl.symm, hlt⟩
        have hstr := direct_strict_natural l3 d3 l1 d1 hcL hcl hcD haL hal haD hstrict
        unfold naturalCompare at hstr
        rw [← hceq, ← haeq] at hstr
        have h13 := natCmpToks_le_trans _ _ _ h1 h2
        have hanti := natCmpToks_antisymm (tokenize (stripWs a)) (tokenize (stripWs c))
        omega
      | none =>
        rw [compareStrings_eq_natural a b (Or.inr hs2)] at h1
        rw [compareStrings_eq_natural b c (Or.inl hs2)] at h2
        rw [compareStrings_eq_natural a c (Or.inr hs3)]
        unfold naturalCompare at h1 h2 ⊢
        exact natCmpToks_le_trans _ _ _ h1 h2
  | none =>
    cases hs2 : lettersDigitsSplit (stripWs b) with
    | some p2 =>
      obtain ⟨l2, d2⟩ := p2
      cases hs3 : lettersDigitsSplit (stripWs c) with
      | some p3 =>
        obtain ⟨l3, d3⟩ := p3
        obtain ⟨hbeq, hbL, hbl, hbD⟩ := lettersDigitsSplit_spec _ _ _ hs2
        obtain ⟨hceq, hcL, hcl, hcD⟩ := lettersDigitsSplit_spec _ _ _ hs3
        rw [compareStrings_eq_natural a b (Or.inl hs1)] at h1
        rw [compareStrings_eq_direct b c l2 d2 l3 d3 hs2 hs3, directCmp_le_iff] at h2
        rw [compareStrings_eq_natural a c (Or.inl hs1)]
        unfold naturalCompare at h1 ⊢
        rcases h2 with hcc | ⟨hl, hn⟩
        · have hstr := direct_strict_natural l2 d2 l3 d3 hbL hbl hbD hcL hcl hcD
            (Or.inl hcc)
          unfold naturalCompare at hstr
          rw [← hbeq, ← hceq] at hstr
          exact le_of_lt (natCmpToks_lt_of_le_of_lt _ _ _ h1 hstr)
        · rcases Nat.lt_or_ge (digitsVal d2) (digitsVal d3) with hlt | hge
          · have hstr := direct_strict_natural l2 d2 l3 d3 hbL hbl hbD hcL hcl hcD
              (Or.inr ⟨hl, hlt⟩)
            unfold naturalCompare at hstr
            rw [← hbeq, ← hceq] at hstr
            exact le_of_lt (natCmpToks_lt_of_le_of_lt _ _ _ h1 hstr)
          · have heqn : digitsVal d2 = digitsVal d3 := le_antisymm hn hge
            subst hl
            rw [hbeq, tokenize_letters_digits l2 d2 hbL hbl hbD] at h1
            rw [hceq, tokenize_letters_digits l2 d3 hcL hcl hcD]
            by_cases hd2 : d2 = []
            · rw [if_pos hd2] at h1
              by_cases hd3 : d3 = []
              · rw [if_pos hd3]
                exact h1
              · have hz : digitsVal d3 = 0 := by
                  rw [← heqn, hd2]
                  rfl
                rw [if_neg hd3, hz]
                have hanti1 := natCmpToks_antisymm (tokenize (stripWs a)) [Tok.str l2]
                have hge1 : 0 ≤ natCmpToks [Tok.str l2] (tokenize (stripWs a)) := by
                  omega
                have hge2 := gap_G3 l2 (tokenize (stripWs a)) hge1
                have hanti2 := natCmpToks_antisymm (tokenize (stripWs a))
                  [Tok.str l2, Tok.num 0]
                omega
            · have hz : digitsVal d2 = 0 ∨ d3 ≠ [] := by
                by_cases hd3 : d3 = []
                · left
                  rw [heqn, hd3]
                  rfl
                · exact Or.inr hd3
              rw [if_neg hd2] at h1
              by_cases hd3 : d3 = []
              · have hz2 : digitsVal d2 = 0 := by
                  rw [heqn, hd3]
                  rfl
                rw [hz2] at h1
                rw [if_pos hd3]
                have hanti1 := natCmpToks_antisymm (tokenize (stripWs a))
                  [Tok.str l2, Tok.num 0]
                have hge1 : 0 ≤ natCmpToks [Tok.str l2, Tok.num 0]
                    (tokenize (stripWs a)) := by
                  omega
                have hge2 := gap_G4 l2 (tokenize (stripWs a))
                  (no_match_ne_pair (stripWs a) l2 0 hs1 hbL hbl) hge1
                have hanti2 := natCmpToks_antisymm (tokenize (stripWs a)) [Tok.str l2]
                omega
              · rw [if_neg hd3, ← heqn]
                exact h1
      | none =>
        rw [compareStrings_eq_natural a b (Or.inl hs1)] at h1
        rw [compareStrings_eq_natural b c (Or.inr hs3)] at h2
        rw [compareStrings_eq_natural a c (Or.inl hs1)]
        unfold naturalCompare at h1 h2 ⊢
        exact natCmpToks_le_trans _ _ _ h1 h2
    | none =>
      rw [compareStrings_eq_natural a b (Or.inl hs1)] at h1
      rw [compareStrings_eq_natural b c (Or.inl hs2)] at h2
      rw [compareStrings_eq_natural a c (Or.inl hs1)]
      unfold naturalCompare at h1 h2 ⊢
      exact natCmpToks_le_trans _ _ _ h1 h2

theorem nameLe_total (a b : JSString) : nameLe a b ∨ nameLe b a := by
  unfold nameLe
  have h := compareStrings_antisymm a b
  omega

instance : IsTrans JSString nameLe :=
  ⟨fun a b c h1 h2 => compareStrings_le_trans a b c h1 h2⟩

instance : IsTotal JSString nameLe :=
  ⟨nameLe_total⟩

instance : IsTrans (JSString × MonitorData) entryLe :=
  ⟨fun a b c h1 h2 => compareStrings_le_trans a.1 b.1 c.1 h1 h2⟩

instance : IsTotal (JSString × MonitorData) entryLe :=
  ⟨fun a b => nameLe_total a.1 b.1⟩

/-- The store holding exactly the identities `HK10`, `HK2`, `HK1`, `US1`
(each snapshot stored under its own name). -/
def fourStore : List (JSString × JSString) :=
  [(strCodes "HK10", strCodes "HK10"), (strCodes "HK2", strCodes "HK2"),
   (strCodes "HK1", strCodes "HK1"), (strCodes "US1", strCodes "US1")]

/-- The expected natural order of the four identities. -/
def hkSorted : List MonitorData :=
  [mkMon (strCodes "HK1") 0, mkMon (strCodes "HK2") 0,
   mkMon (strCodes "HK10") 0, mkMon (strCodes "US1") 0]

theorem sorted_perm_eq_on {α : Type} (r : α → α → Prop) :
    ∀ (l1 l2 : List α), l1.Perm l2 → l1.Sorted r → l2.Sorted r →
      (∀ a ∈ l1, ∀ b ∈ l1, r a b → r b a → a = b) → l1 = l2 := by
  intro l1
  induction l1 with
  | nil =>
    intro l2 p _ _ _
    exact p.nil_eq
  | cons x xs ih =>
    intro l2 p s1 s2 anti
    cases l2 with
    | nil => exact absurd p.symm.nil_eq (by simp)
    | cons y ys =>
      have hx2 : x ∈ y :: ys := p.subset (List.mem_cons_self x xs)
      have hy1 : y ∈ x :: xs := p.symm.subset (List.mem_cons_self y ys)
      obtain ⟨hs1p, hs1t⟩ := List.sorted_cons.mp s1
      obtain ⟨hs2p, hs2t⟩ := List.sorted_cons.mp s2
      have hxy : x = y := by
        rcases List.mem_cons.mp hx2 with he | hxys
        · exact he
        rcases List.mem_cons.mp hy1 with he | hyxs
        · exact he.symm
        · exact anti x (List.mem_cons_self x xs) y
            (List.mem_cons.mpr (Or.inr hyxs)) (hs1p y hyxs) (hs2p x hxys)
      subst hxy
      have pt : xs.Perm ys := p.cons_inv
      have ht : xs = ys := ih ys pt hs1t hs2t
        (fun a ha b hb hab hba =>
          anti a (List.mem_cons_of_mem x ha) b (List.mem_cons_of_mem x hb) hab hba)
      rw [ht]

theorem fourStore_entry_anti :
    ∀ a ∈ getAllEntries rtW fourStore, ∀ b ∈ getAllEntries rtW fourStore,
      entryLe a b → entryLe b a → a = b := by
  decide

/-- C3: `all()`/`fetchAll()` returns the stored snapshots in natural name
order: the output of `getAllMonitorData` is a permutation of the parsed
snapshot values; the entry list it reads off is sorted by the comparator
`compareStrings` on the map keys (a total, transitive relation — shown by
`compareStrings_le_trans` — covering whitespace stripping, the direct
letters/digits comparison and the tokenizing natural fallback); and every
store holding exactly the identities `HK10`, `HK2`, `HK1`, `US1` — inserted
in any order, i.e. any permutation of `fourStore` — comes back as
`HK1`, `HK2`, `HK10`, `US1`. -/
theorem natural_order_of_all (rt : JsRuntime) (md : List (JSString × JSString)) :
    (getAllMonitorData rt md).Perm ((getAllEntries rt md).map Prod.snd) ∧
    List.Sorted entryLe ((getAllEntries rt md).insertionSort entryLe) ∧
    List.Sorted nameLe (((getAllEntries rt md).insertionSort entryLe).map Prod.fst) ∧
    (∀ l, l.Perm fourStore → getAllMonitorData rtW l = hkSorted) := by
  refine ⟨?_, ?_, ?_, ?_⟩
  · exact List.Perm.map Prod.snd (List.perm_insertionSort entryLe _)
  · exact List.sorted_insertionSort entryLe _
  · rw [List.map_insertionSort entryLe nameLe Prod.fst (getAllEntries rt md)
      (fun a _ b _ => Iff.rfl)]
    exact List.sorted_insertionSort nameLe _
  · intro l hp
    have hpe : (getAllEntries rtW l).Perm (getAllEntries rtW fourStore) :=
      hp.filterMap _
    have hps : ((getAllEntries rtW l).insertionSort entryLe).Perm
        ((getAllEntries rtW fourStore).insertionSort entryLe) :=
      ((List.perm_insertionSort entryLe _).trans hpe).trans
        (List.perm_insertionSort entryLe _).symm
    have hs1 := List.sorted_insertionSort entryLe (getAllEntries rtW l)
    have hs2 := List.sorted_insertionSort entryLe (getAllEntries rtW fourStore)
    have anti : ∀ a ∈ (getAllEntries rtW l).insertionSort entryLe,
        ∀ b ∈ (getAllEntries rtW l).insertionSort entryLe,
        entryLe a b → entryLe b a → a = b := by
      intro a ha b hb hab hba
      have ha2 : a ∈ getAllEntries rtW fourStore :=
        hpe.subset ((List.perm_insertionSort entryLe _).subset ha)
      have hb2 : b ∈ getAllEntries rtW fourStore :=
        hpe.subset ((List.perm_insertionSort entryLe _).subset hb)
      exact fourStore_entry_anti a ha2 b hb2 hab hba
    have heq := sorted_perm_eq_on entryLe _ _ hps hs1 hs2 anti
    unfold getAllMonitorData
    rw [heq]
    decide

/-- Witness for C3: the four-identity store in one concrete insertion order
(`HK10`, `HK2`, `HK1`, `US1`) comes back as `HK1`, `HK2`, `HK10`, `US1`. -/
theorem natural_order_witness : getAllMonitorData rtW fourStore = hkSorted :=
  (natural_order_of_all rtW fourStore).2.2.2 fourStore (List.Perm.refl _)
